/-
  Verification of the docker-compose backup scripts (`backup.py`, `backup_all.py`)
  against their natural-language specification.

  The development shallowly embeds the decision logic of the scripts:
  * `extract_named_volumes` — volume discovery from a parsed compose descriptor;
  * `rotate_project_backups` — the remote retention decision, including a model
    of Python's `datetime` comparison semantics (offset-naive vs offset-aware);
  * `backup_project` — the per-project workflow as a trace of effects;
  * `backup_all_projects` — the batch workflow over a projects root.

  String predicates are written over `String.data` (lists of characters) so
  that every definition evaluates inside the kernel; they agree with the
  corresponding Python string operations on code points.
-/
import Mathlib

namespace ComposeBackup

/-! ## Character-level string helpers -/

/-- Code-point lexicographic `≤` on character lists, as Python compares
strings. -/
def lexLEb : List Char → List Char → Bool
  | [], _ => true
  | _ :: _, [] => false
  | a :: as, b :: bs => if a = b then lexLEb as bs else decide (a < b)

/-- Python's string `<=` (lexicographic by code point). -/
def strLE (a b : String) : Prop := lexLEb a.data b.data = true

instance : DecidableRel strLE := fun _ _ => inferInstanceAs (Decidable (_ = true))

/-- `s.startswith(c)` for a single-character pattern. -/
def strHeadIs (s : String) (c : Char) : Bool :=
  match s.data.head? with
  | some d => d == c
  | none => false

/-- `needle in s` for a single character (Python `"/" in volkey`). -/
def strHasChar (s : String) (c : Char) : Bool := s.data.contains c

/-- `s.endswith(t)`. -/
def strEndsWith (s t : String) : Bool := t.data.isSuffixOf s.data

/-- `t` is a prefix of `s` (used to model `shutil.rmtree` wiping a directory
and everything under it). -/
def strStarts (s t : String) : Bool := t.data.isPrefixOf s.data

/-- `s.replace("Z", "+00:00")` at character level. -/
def replaceZ : List Char → List Char
  | [] => []
  | c :: cs => if c = 'Z' then '+' :: '0' :: '0' :: ':' :: '0' :: '0' :: replaceZ cs
               else c :: replaceZ cs

/-- `s.rstrip('/')`. -/
def rstripSlash (s : String) : String :=
  String.mk ((s.data.reverse.dropWhile (· == '/')).reverse)

/-! ## Volume discovery (`backup.py`, `extract_named_volumes`)

A parsed compose descriptor.  A service's `volumes:` entry is either the short
string form `"source:target[:mode]"`, a mapping with an optional `source` field,
or some other YAML value (skipped by the code).  A top-level volume definition
is a mapping that carries a `name:` field, a mapping without one, or any other
value (e.g. the common bare `data:` key, which parses to `None`).  Volume
`name:` values are modelled as strings, service specs as their effective
volume-entry lists (a service that is `None` or lacks `volumes:` contributes
the empty list). -/

inductive VolEntry where
  | str (s : String)
  | map (source : Option String)
  | other
  deriving DecidableEq

inductive VolDef where
  | dictWithName (n : String)
  | dictNoName
  | other
  deriving DecidableEq

structure Descriptor where
  services : List (String × List VolEntry)
  volumes : List (String × VolDef)

/-- Source token extraction: the short form takes everything before the first
`:` (`v.split(":", 1)[0]`); the mapping form reads its `source` field
(`v.get("source")`, `None` when absent); anything else is skipped. -/
def mountKey : VolEntry → Option String
  | .str s => some (String.mk (s.data.takeWhile (· != ':')))
  | .map source => source
  | .other => none

/-- `"/" in volkey or volkey.startswith(".") or volkey.startswith("~")`. -/
def isHostPath (k : String) : Bool :=
  strHasChar k '/' || strHeadIs k '.' || strHeadIs k '~'

/-- `volkey in top_volumes` followed by
`isinstance(vol_def, dict) and "name" in vol_def`: the explicit external name,
when the key is defined at top level with one. -/
def lookupName (tv : List (String × VolDef)) (k : String) : Option String :=
  match tv.lookup k with
  | some (.dictWithName n) => some n
  | _ => none

/-- The per-entry step of the loop body in `extract_named_volumes` (the chain
of `continue`s): extract the source token, skip falsy tokens, skip host paths,
then resolve through the top-level volume definitions. -/
def mountStep (tv : List (String × VolDef)) (v : VolEntry) : Option String :=
  match mountKey v with
  | none => none
  | some k =>
    if k.data.isEmpty then none
    else if isHostPath k then none
    else
      match lookupName tv k with
      | some e => some e
      | none => some k

/-- All resolved names in iteration order (services outer loop, each service's
volume list inner loop), before the set/`sorted` step. -/
def collectNames (d : Descriptor) : List String :=
  d.services.flatMap (fun s => s.2.filterMap (mountStep d.volumes))

/-- `sorted(named_volumes)` for the set of collected names: deduplicate, then
sort lexicographically by code point, which is Python's string order. -/
def extract_named_volumes (d : Descriptor) : List String :=
  ((collectNames d).dedup).insertionSort strLE

/-- A service volume entry that the code skips: no source token, an empty
source token, or a host-path-like token. -/
def excludedMount (v : VolEntry) : Bool :=
  match mountKey v with
  | none => true
  | some k => k.data.isEmpty || isHostPath k

/-- A descriptor with every excluded mount removed from every service. -/
def dropExcluded (d : Descriptor) : Descriptor :=
  ⟨d.services.map (fun s => (s.1, s.2.filter (fun v => !excludedMount v))), d.volumes⟩

/-! ## Python `datetime` model (`backup.py`, `_parse_time`)

`_parse_time` calls `datetime.datetime.fromisoformat` (Python standard
library, external to this repository).  We model a parsed datetime by whether
it is offset-naive or offset-aware, together with its position on a linear
timeline: for a naive value, microseconds since 0001-01-01T00:00:00 (so
`datetime.min` is `naive 0`, the least naive value — `fromisoformat` rejects
year 0); for an aware value, the UTC instant in microseconds on the same
origin (the parsed components minus the UTC offset).  Python compares two
naive or two aware datetimes by exactly these numbers, and raises `TypeError`
when asked to compare a naive with an aware datetime.

The parser below follows `fromisoformat` (Python ≥ 3.11 behaviour) on
calendar-date strings `YYYY-MM-DD[<sep>HH[:MM[:SS[.fff…]]]][±HH[:MM[:SS]]]`,
which covers every string rclone's `lsjson` can emit after the code's
`replace("Z", "+00:00")`; exotic ISO-8601 shapes (week dates, ordinal dates)
are treated as unparseable. -/

inductive PyDatetime where
  | naive (t : Nat)
  | aware (t : Int)
  deriving DecidableEq

/-- Read exactly `n` decimal digits, accumulating their value. -/
def readNDigits : Nat → Nat → List Char → Option (Nat × List Char)
  | 0, acc, cs => some (acc, cs)
  | n + 1, acc, c :: cs =>
    if c.isDigit then readNDigits n (acc * 10 + (c.toNat - 48)) cs else none
  | _ + 1, _, [] => none

def expectChar (c : Char) : List Char → Option (List Char)
  | d :: cs => if d = c then some cs else none
  | [] => none

def isLeapYear (y : Nat) : Bool :=
  y % 4 == 0 && (!(y % 100 == 0) || y % 400 == 0)

def monthLengths (leap : Bool) : List Nat :=
  [31, if leap then 29 else 28, 31, 30, 31, 30, 31, 31, 30, 31, 30, 31]

def daysInMonth (y m : Nat) : Nat :=
  (monthLengths (isLeapYear y)).getD (m - 1) 0

def daysBeforeMonth (y m : Nat) : Nat :=
  ((monthLengths (isLeapYear y)).take (m - 1)).foldl (· + ·) 0

/-- Days between 0001-01-01 and the given (valid) civil date, proleptic
Gregorian — the ordinal Python's `datetime` orders naive datetimes by. -/
def daysFromCivil (y m d : Nat) : Nat :=
  365 * (y - 1) + (y - 1) / 4 + (y - 1) / 400 - (y - 1) / 100
    + daysBeforeMonth y m + (d - 1)

def epochMicro (y m d h mi s us : Nat) : Nat :=
  (((daysFromCivil y m d * 24 + h) * 60 + mi) * 60 + s) * 1000000 + us

/-- Fractional-second digits to microseconds (truncating beyond 6 digits). -/
def fracMicro (ds : List Char) : Nat :=
  ((ds.take 6).foldl (fun a c => a * 10 + (c.toNat - 48)) 0)
    * 10 ^ (6 - min ds.length 6)

/-- Time-of-day `HH[:MM[:SS[.fff…]]]` (comma also accepted as the fraction
separator, as in CPython). -/
def parseTimeOfDay (cs : List Char) : Option (Nat × Nat × Nat × Nat × List Char) := do
  let (h, r1) ← readNDigits 2 0 cs
  match r1 with
  | ':' :: r2 =>
    let (mi, r3) ← readNDigits 2 0 r2
    match r3 with
    | ':' :: r4 =>
      let (s, r5) ← readNDigits 2 0 r4
      match r5 with
      | '.' :: r6 =>
        let ds := r6.takeWhile Char.isDigit
        if ds.isEmpty then none
        else some (h, mi, s, fracMicro ds, r6.dropWhile Char.isDigit)
      | ',' :: r6 =>
        let ds := r6.takeWhile Char.isDigit
        if ds.isEmpty then none
        else some (h, mi, s, fracMicro ds, r6.dropWhile Char.isDigit)
      | _ => some (h, mi, s, 0, r5)
    | _ => some (h, mi, 0, 0, r3)
  | _ => some (h, 0, 0, 0, r1)

/-- UTC offset tail after the sign: `HH`, `HHMM` or `HH:MM[:SS]`. -/
def parseOffTail (cs : List Char) : Option (Nat × Nat × Nat) := do
  let (hh, r1) ← readNDigits 2 0 cs
  match r1 with
  | [] => if hh ≤ 23 then some (hh, 0, 0) else none
  | ':' :: r2 =>
    let (mm, r3) ← readNDigits 2 0 r2
    match r3 with
    | [] => if hh ≤ 23 && mm ≤ 59 then some (hh, mm, 0) else none
    | ':' :: r4 =>
      let (ss, r5) ← readNDigits 2 0 r4
      match r5 with
      | [] => if hh ≤ 23 && mm ≤ 59 && ss ≤ 59 then some (hh, mm, ss) else none
      | _ => none
    | _ => none
  | _ =>
    let (mm, r3) ← readNDigits 2 0 r1
    match r3 with
    | [] => if hh ≤ 23 && mm ≤ 59 then some (hh, mm, 0) else none
    | _ => none

def offMicro (v : Nat × Nat × Nat) : Int :=
  ((v.1 * 3600 + v.2.1 * 60 + v.2.2 : Nat) : Int) * 1000000

/-- Trailing UTC offset: absent (naive), or `±HH[[:]MM[:SS]]`. -/
def parseOffsetPart : List Char → Option (Option Int)
  | [] => some none
  | '+' :: r => (parseOffTail r).map (fun v => some (offMicro v))
  | '-' :: r => (parseOffTail r).map (fun v => some (-(offMicro v)))
  | _ => none

/-- `datetime.datetime.fromisoformat` on calendar-date strings (see the
section comment for the modelling scope). -/
def fromIso (s : String) : Option PyDatetime := do
  let (y, r1) ← readNDigits 4 0 s.data
  let r2 ← expectChar '-' r1
  let (m, r3) ← readNDigits 2 0 r2
  let r4 ← expectChar '-' r3
  let (d, r5) ← readNDigits 2 0 r4
  if y < 1 || m < 1 || 12 < m || d < 1 || daysInMonth y m < d then none
  else
    match r5 with
    | [] => some (.naive (epochMicro y m d 0 0 0 0))
    | _ :: r6 => do
      let (h, mi, sec, us, r7) ← parseTimeOfDay r6
      if 23 < h || 59 < mi || 59 < sec then none
      else do
        let off ← parseOffsetPart r7
        match off with
        | none => some (.naive (epochMicro y m d h mi sec us))
        | some o => some (.aware ((epochMicro y m d h mi sec us : Int) - o))

/-- `_parse_time`: falsy (`None` or empty) and unparseable timestamps become
`datetime.min` (`naive 0`); otherwise parse after `replace("Z", "+00:00")`. -/
def _parse_time (mod_time : Option String) : PyDatetime :=
  match mod_time with
  | none => .naive 0
  | some s =>
    if s.data.isEmpty then .naive 0
    else
      match fromIso (String.mk (replaceZ s.data)) with
      | some dt => dt
      | none => .naive 0

/-! ## Retention (`backup.py`, `rotate_project_backups`)

The input is the parsed `rclone lsjson` array: each entry's `Path`, `Name`
(both absent-able strings), `IsDir` and `ModTime` fields.  The function below
models the pure decision core of `rotate_project_backups`: given the parsed
listing, it either fails the way the Python run fails, or returns, in order,
the `rclone deletefile` targets the code would issue (the code issues them
sequentially, aborting on the first failing delete). -/

structure RcloneEntry where
  path : Option String
  name : Option String
  isDir : Bool
  modTime : Option String
  deriving DecidableEq

/-- `not entry.get("IsDir") and str(entry.get("Path", "")).endswith(".zip")`. -/
def isBackupEntry (e : RcloneEntry) : Bool :=
  !e.isDir && strEndsWith (e.path.getD "") ".zip"

def entryKey (e : RcloneEntry) : PyDatetime := _parse_time e.modTime

/-- The linear position used by Python to compare two datetimes of the same
kind (see the `PyDatetime` model comment). -/
def keyVal : PyDatetime → Int
  | .naive t => (t : Int)
  | .aware t => t

def isNaiveKey (e : RcloneEntry) : Bool :=
  match entryKey e with
  | .naive _ => true
  | .aware _ => false

def isAwareKey (e : RcloneEntry) : Bool :=
  match entryKey e with
  | .naive _ => false
  | .aware _ => true

/-- A listing whose sort keys mix offset-naive and offset-aware datetimes.
Any comparison sort of such a list must at some point compare a naive key
with an aware key — every element is one or the other, so ordering them
relative to each other forces at least one cross comparison — and Python's
`datetime` raises `TypeError` on that comparison, aborting `list.sort`. -/
def mixedKinds (l : List RcloneEntry) : Bool :=
  l.any isNaiveKey && l.any isAwareKey

def entryLE (a b : RcloneEntry) : Prop := keyVal (entryKey a) ≤ keyVal (entryKey b)

instance : DecidableRel entryLE := fun _ _ => inferInstanceAs (Decidable (_ ≤ _))

instance : IsTotal RcloneEntry entryLE := ⟨fun _ _ => le_total _ _⟩

instance : IsTrans RcloneEntry entryLE := ⟨fun _ _ _ h1 h2 => le_trans h1 h2⟩

/-- `backups.sort(key=lambda e: _parse_time(e.get("ModTime")))` on a list
whose keys are uniformly comparable: Python's Timsort is a stable comparison
sort, so it is extensionally insertion sort on the key order. -/
def sortBackups (l : List RcloneEntry) : List RcloneEntry :=
  List.insertionSort entryLE l

inductive RotErr where
  | valueError
  | typeError
  deriving DecidableEq

/-- `entry.get("Path") or entry.get("Name")`, then `if not rel_path: continue`:
the entry's relative path if truthy, else its name if truthy, else skipped. -/
def relPath (e : RcloneEntry) : Option String :=
  match (if (e.path.getD "").data.isEmpty then e.name else e.path) with
  | some p => if p.data.isEmpty then none else some p
  | none => none

/-- `f"{remote}:{remote_path.rstrip('/')}/{rel_path}"`, or `f"{remote}:{rel_path}"`
when `remote_path` is falsy. -/
def deleteTarget (remote remotePath p : String) : String :=
  if remotePath.data.isEmpty then remote ++ ":" ++ p
  else remote ++ ":" ++ rstripSlash remotePath ++ "/" ++ p

/-- The decision core of `rotate_project_backups` (`keep < 1` check, filter to
non-directory `.zip` entries, sort by parsed modification time — raising
`TypeError` on a naive/aware mix, see `mixedKinds` —, keep-count check, and
the ordered `deletefile` targets for `backups[:-keep]`). -/
def rotate_project_backups (remote remotePath : String) (keep : Int)
    (entries : List RcloneEntry) : Except RotErr (List String) :=
  if keep < 1 then .error .valueError
  else
    let backups := entries.filter isBackupEntry
    if mixedKinds backups then .error .typeError
    else
      let sorted := sortBackups backups
      if (backups.length : Int) ≤ keep then .ok []
      else
        .ok (((sorted.take (backups.length - keep.toNat)).filterMap relPath).map
          (deleteTarget remote remotePath))

/-! ## Per-project workflow (`backup.py`, `backup_project`)

The workflow is modelled as a deterministic straight-line program over an
environment `Env` recording which external operations succeed.  Running it
yields a trace of effects and an outcome.  Filesystem-mutating effects
(archive creation, directory creation, move, rmtree, unlink) are recorded
only when they succeed — a failing call's partial effects are not modelled —
while external invocations (`docker compose down`/`up -d`, the rclone upload,
the rotation call) are recorded when invoked, with the environment flag
saying whether the command succeeded.  Volume discovery is assumed to succeed
once a compose file is found and parsed (`descriptorOk`), yielding
`Env.volumes`; a `docker run` volume export is recorded (with its created
archive) only when it succeeds, and the loop stops at the first failure. -/

structure Cfg where
  parent : String
  name : String
  ts : String
  remote : String
  remotePath : String
  keep : Int

def projDir (c : Cfg) : String := c.parent ++ "/" ++ c.name

/-- `project_dir.parent / f"{project_name}-project-{timestamp}"`. -/
def treeBase (c : Cfg) : String := c.parent ++ "/" ++ c.name ++ "-project-" ++ c.ts

def treeZipOutside (c : Cfg) : String := treeBase c ++ ".zip"

/-- `project_dir / f".docker-backup-temp-{timestamp}"`. -/
def tempDir (c : Cfg) : String := projDir c ++ "/.docker-backup-temp-" ++ c.ts

def treeZipInTemp (c : Cfg) : String :=
  tempDir c ++ "/" ++ c.name ++ "-project-" ++ c.ts ++ ".zip"

/-- `temp_dir / f"volume-{volume_name}-{timestamp}.tar.gz"`. -/
def volArchive (c : Cfg) (v : String) : String :=
  tempDir c ++ "/volume-" ++ v ++ "-" ++ c.ts ++ ".tar.gz"

/-- `project_dir / f"{project_name}-{timestamp}"`. -/
def finalBase (c : Cfg) : String := projDir c ++ "/" ++ c.name ++ "-" ++ c.ts

def finalZip (c : Cfg) : String := finalBase c ++ ".zip"

inductive Event where
  | makeArchive (base rootDir : String)
  | mkdirTemp (path : String)
  | move (src dst : String)
  | composeDown
  | exportVol (v : String) (archive : String)
  | composeUp
  | upload (file : String)
  | rmtree (path : String)
  | unlink (path : String)
  | rotateCall (remote remotePath : String) (keep : Int)
  deriving DecidableEq

structure Env where
  isDir : Bool
  treeOk : Bool
  tempDirExists : Bool
  descriptorOk : Bool
  volumes : List String
  cmdOk : Bool
  downOk : Bool
  exportOk : String → Bool
  upOk : Bool
  bundleOk : Bool
  uploadOk : Bool
  rmtreeOk : Bool
  unlinkOk : Bool
  rotateOk : Bool

/-- The filesystem footprint of an event on the set (as a list) of paths this
run has created: `shutil.make_archive` creates `base + ".zip"`, a move
relocates, `shutil.rmtree` removes a directory and everything under it,
`unlink` removes one file. -/
def applyEvent (st : List String) : Event → List String
  | .makeArchive base _ => (base ++ ".zip") :: st
  | .mkdirTemp p => p :: st
  | .move src dst => dst :: st.filter (fun x => !(x == src))
  | .rmtree p => st.filter (fun x => !strStarts x p)
  | .unlink p => st.filter (fun x => !(x == p))
  | .composeDown => st
  | .exportVol _ a => a :: st
  | .composeUp => st
  | .upload _ => st
  | .rotateCall _ _ _ => st

/-- Paths created by the run and still existing after the trace. -/
def finalState (trace : List Event) : List String :=
  trace.foldl applyEvent []

/-- The volume-export loop: export events for the successful prefix, and the
first failing volume, if any. -/
def exportEvents (c : Cfg) (ok : String → Bool) : List String → List Event × Option String
  | [] => ([], none)
  | v :: vs =>
    if ok v then
      let r := exportEvents c ok vs
      (Event.exportVol v (volArchive c v) :: r.1, r.2)
    else ([], some v)

inductive BErr where
  | notADir
  | treeArchiveFailed
  | composeFileNotFound
  | composeCmdNotFound
  | downFailed
  | exportFailed (v : String)
  | upFailed
  | bundleFailed
  | uploadFailed
  | rmtreeFailed
  | unlinkFailed
  | rotateFailed
  deriving DecidableEq

inductive RunOutcome where
  | success (finalZipPath : String)
  | raised (e : BErr)
  | exited (code : Nat)
  deriving DecidableEq

structure RunResult where
  trace : List Event
  outcome : RunOutcome
  deriving DecidableEq

@[simp]
def isExitedOutcome : RunOutcome → Bool
  | .exited _ => true
  | _ => false

/-- Steps 8–10 of `backup_project`: remove the temp directory, remove the
final zip if it still exists, rotate remote backups.  `t` is the trace up to
and including the upload. -/
def cleanupAndRotate (c : Cfg) (env : Env) (t : List Event) : RunResult :=
  if !env.rmtreeOk then ⟨t, .raised .rmtreeFailed⟩
  else
    if (finalState (t ++ [Event.rmtree (tempDir c)])).contains (finalZip c) then
      if !env.unlinkOk then ⟨t ++ [Event.rmtree (tempDir c)], .raised .unlinkFailed⟩
      else
        if !env.rotateOk then
          ⟨(t ++ [Event.rmtree (tempDir c)] ++ [Event.unlink (finalZip c)])
            ++ [Event.rotateCall c.remote c.remotePath c.keep], .raised .rotateFailed⟩
        else
          ⟨(t ++ [Event.rmtree (tempDir c)] ++ [Event.unlink (finalZip c)])
            ++ [Event.rotateCall c.remote c.remotePath c.keep], .success (finalZip c)⟩
    else
      if !env.rotateOk then
        ⟨(t ++ [Event.rmtree (tempDir c)])
          ++ [Event.rotateCall c.remote c.remotePath c.keep], .raised .rotateFailed⟩
      else
        ⟨(t ++ [Event.rmtree (tempDir c)])
          ++ [Event.rotateCall c.remote c.remotePath c.keep], .success (finalZip c)⟩

/-- Trace of the successful steps 1–2: tree archive in the parent directory,
staging directory creation, move of the tree archive into staging. -/
def stagePrefix (c : Cfg) : List Event :=
  [Event.makeArchive (treeBase c) (projDir c), Event.mkdirTemp (tempDir c),
   Event.move (treeZipOutside c) (treeZipInTemp c)]

/-- The `try` block of `backup_project` (steps after staging): find the
compose file and discover volumes, stop services, export each volume,
restart services, bundle staging into the final zip, upload it, then clean
up and rotate.  Any stage failure re-raises after reporting. -/
def afterStaging (c : Cfg) (env : Env) : RunResult :=
  let t1 := stagePrefix c
  if !env.descriptorOk then ⟨t1, .raised .composeFileNotFound⟩
  else if !env.cmdOk then ⟨t1, .raised .composeCmdNotFound⟩
  else
    let t2 := t1 ++ [Event.composeDown]
    if !env.downOk then ⟨t2, .raised .downFailed⟩
    else
      match exportEvents c env.exportOk env.volumes with
      | (es, some v) => ⟨t2 ++ es, .raised (.exportFailed v)⟩
      | (es, none) =>
        let t3 := t2 ++ es ++ [Event.composeUp]
        if !env.upOk then ⟨t3, .raised .upFailed⟩
        else if !env.bundleOk then ⟨t3, .raised .bundleFailed⟩
        else
          let t4 := t3 ++ [Event.makeArchive (finalBase c) (tempDir c),
                           Event.upload (finalZip c)]
          if !env.uploadOk then ⟨t4, .raised .uploadFailed⟩
          else cleanupAndRotate c env t4

/-- `backup_project`: validate the project directory, archive the project tree
in the parent directory (before any staging directory exists inside the
project), create the staging directory — terminating the process with exit
code 1 on a `FileExistsError` collision —, then run the `try` block
(`afterStaging`). -/
def backup_project (c : Cfg) (env : Env) : RunResult :=
  if !env.isDir then ⟨[], .raised .notADir⟩
  else if !env.treeOk then ⟨[], .raised .treeArchiveFailed⟩
  else if env.tempDirExists then
    ⟨[Event.makeArchive (treeBase c) (projDir c)], .exited 1⟩
  else afterStaging c env

/-- Events that destroy a local artifact (the staging directory or the final
bundle); a move merely relocates its content. -/
@[simp]
def isDeletion : Event → Bool
  | .rmtree _ => true
  | .unlink _ => true
  | _ => false

@[simp]
def isUploadEv : Event → Bool
  | .upload _ => true
  | _ => false

@[simp]
def isRotateEv : Event → Bool
  | .rotateCall _ _ _ => true
  | _ => false

/-! ## Batch workflow (`backup_all.py`, `backup_all_projects`)

The batch environment holds the root directory listing (entry name and
whether it is a directory), a timestamp and an `Env` per project.  Each
project runs `backup_project` with the same remote settings and the default
keep count of 4; an exception (`raised`) is recorded and the loop continues,
while a `SystemExit` (`exited`, from the staging-collision `sys.exit(1)`)
is not an `Exception` and escapes `except Exception`, aborting the batch. -/

structure BatchEnv where
  rootIsDir : Bool
  listing : List (String × Bool)
  tsOf : String → String
  projEnv : String → Env

def pairNameLE (a b : String × Bool) : Prop := strLE a.1 b.1

instance : DecidableRel pairNameLE := fun _ _ => inferInstanceAs (Decidable (_ = true))

/-- `sorted(root.iterdir())` sorts paths sharing the root prefix, i.e. by
entry name; `if path.is_dir()` keeps directories. -/
def iter_project_dirs (listing : List (String × Bool)) : List String :=
  ((listing.insertionSort pairNameLE).filter (fun p => p.2)).map (fun p => p.1)

def cfgFor (remote remotePath root : String) (benv : BatchEnv) (p : String) : Cfg :=
  ⟨root, p, benv.tsOf p, remote, remotePath, 4⟩

inductive BatchOutcome where
  | ok
  | failures (fs : List (String × BErr))
  | noRoot
  | noProjects
  | exitedEarly (code : Nat)
  deriving DecidableEq

structure BatchResult where
  attempted : List String
  failed : List (String × BErr)
  outcome : BatchOutcome
  deriving DecidableEq

/-- The per-project loop with failure collection and `SystemExit`
propagation: attempted projects in order, recorded failures, and the exit
code if a project terminated the process. -/
def batchLoop (remote remotePath root : String) (benv : BatchEnv) :
    List String → List String × List (String × BErr) × Option Nat
  | [] => ([], [], none)
  | p :: ps =>
    match (backup_project (cfgFor remote remotePath root benv p) (benv.projEnv p)).outcome with
    | .exited n => ([p], [], some n)
    | .raised e =>
      ((p :: (batchLoop remote remotePath root benv ps).1,
        (p, e) :: (batchLoop remote remotePath root benv ps).2.1,
        (batchLoop remote remotePath root benv ps).2.2))
    | .success _ =>
      ((p :: (batchLoop remote remotePath root benv ps).1,
        (batchLoop remote remotePath root benv ps).2.1,
        (batchLoop remote remotePath root benv ps).2.2))

/-- `backup_all_projects`: validate the root, list and sort project
directories (raising `FileNotFoundError` when none), run each project,
and finish with success, an aggregate `RuntimeError` naming each failed
project and its error, or early process termination. -/
def backup_all_projects (remote remotePath root : String) (benv : BatchEnv) : BatchResult :=
  if !benv.rootIsDir then ⟨[], [], .noRoot⟩
  else if (iter_project_dirs benv.listing).isEmpty then ⟨[], [], .noProjects⟩
  else
    match batchLoop remote remotePath root benv (iter_project_dirs benv.listing) with
    | (as, fs, some n) => ⟨as, fs, .exitedEarly n⟩
    | (as, fs, none) => ⟨as, fs, if fs.isEmpty then .ok else .failures fs⟩

/-- The listing restricted to backup archives:
`[entry for entry in entries if not IsDir and Path ends with ".zip"]`. -/
def backupsOf (entries : List RcloneEntry) : List RcloneEntry :=
  entries.filter isBackupEntry

/-- How many entries rotation must delete when the kept count is exceeded. -/
def excessOf (keep : Int) (entries : List RcloneEntry) : Nat :=
  (backupsOf entries).length - keep.toNat

/-! ## Concrete inputs used by witnesses and counterexamples -/

def entOldNoTime : RcloneEntry := ⟨some "old.zip", none, false, none⟩

def entNew : RcloneEntry := ⟨some "new.zip", none, false, some "2024-05-01T12:00:00Z"⟩

def entMid : RcloneEntry := ⟨some "mid.zip", none, false, some "2023-01-01T00:00:00Z"⟩

def entEarly : RcloneEntry := ⟨some "early.zip", none, false, some "2022-06-15T08:30:00Z"⟩

def entSubDir : RcloneEntry := ⟨some "sub.zip", none, true, some "2021-01-01T00:00:00Z"⟩

def entTxt : RcloneEntry := ⟨some "notes.txt", none, false, some "2021-01-01T00:00:00Z"⟩

/-- A retention listing with three backup archives, one directory and one
non-archive file. -/
def listingW : List RcloneEntry := [entNew, entSubDir, entMid, entTxt, entEarly]

@[simp]
def isMkdirEv : Event → Bool
  | .mkdirTemp _ => true
  | _ => false

/-- The full trace of a run that has just uploaded the final bundle: staging,
services stopped, every volume exported, services restarted, bundle created,
bundle uploaded. -/
def preUploadTrace (c : Cfg) (vols : List String) : List Event :=
  stagePrefix c ++ [Event.composeDown]
    ++ vols.map (fun v => Event.exportVol v (volArchive c v))
    ++ [Event.composeUp, Event.makeArchive (finalBase c) (tempDir c),
        Event.upload (finalZip c)]

/-- The failure record the batch loop stores for a project, if any. -/
def failureOf (remote remotePath root : String) (benv : BatchEnv) (p : String) :
    Option (String × BErr) :=
  match (backup_project (cfgFor remote remotePath root benv p) (benv.projEnv p)).outcome with
  | .raised e => some (p, e)
  | _ => none

/-- A concrete project configuration. -/
def cfgW : Cfg := ⟨"/srv", "shop", "20240101-000000", "remote", "backups", 4⟩

/-- An environment in which every external operation succeeds. -/
def envAllOk : Env :=
  ⟨true, true, false, true, ["data", "dbdata"], true, true, fun _ => true,
   true, true, true, true, true, true⟩

/-- Everything succeeds except the export of volume `dbdata`. -/
def envExportFail : Env := { envAllOk with exportOk := fun v => !(v == "dbdata") }

/-- Everything succeeds except removing the staging directory at cleanup. -/
def envCleanupFail : Env := { envAllOk with rmtreeOk := false }

/-- The staging directory already exists (timestamp collision). -/
def envCollision : Env := { envAllOk with tempDirExists := true }

/-- Everything succeeds except stopping the services. -/
def envDownFail : Env := { envAllOk with downOk := false }

/-- A projects root where project `alpha` hits the staging collision and
`beta` would succeed. -/
def benvCollision : BatchEnv :=
  ⟨true, [("beta", true), ("alpha", true), ("notes.txt", false)],
   fun _ => "20240101-000000",
   fun p => if p == "alpha" then envCollision else envAllOk⟩

/-- A projects root where project `alpha` fails to stop services and `beta`
succeeds. -/
def benvMix : BatchEnv :=
  ⟨true, [("beta", true), ("alpha", true)], fun _ => "20240101-000000",
   fun p => if p == "alpha" then envDownFail else envAllOk⟩

/-! ## Basic lemmas -/

theorem lexLEb_total (as bs : List Char) : lexLEb as bs = true ∨ lexLEb bs as = true := by
  induction as generalizing bs with
  | nil => left; rfl
  | cons a as ih =>
    cases bs with
    | nil => right; rfl
    | cons b bs =>
      by_cases hab : a = b
      · subst hab
        rcases ih bs with h | h
        · left; simpa [lexLEb] using h
        · right; simpa [lexLEb] using h
      · rcases Ne.lt_or_lt hab with h | h
        · left; simp [lexLEb, hab, h]
        · right; simp [lexLEb, Ne.symm hab, h]

theorem lexLEb_trans {as bs cs : List Char} (h1 : lexLEb as bs = true)
    (h2 : lexLEb bs cs = true) : lexLEb as cs = true := by
  induction as generalizing bs cs with
  | nil => rfl
  | cons a as ih =>
    cases bs with
    | nil => simp [lexLEb] at h1
    | cons b bs =>
      cases cs with
      | nil => simp [lexLEb] at h2
      | cons c cs =>
        simp only [lexLEb] at h1 h2 ⊢
        by_cases hab : a = b
        · subst hab
          by_cases hbc : a = c
          · subst hbc
            rw [if_pos rfl] at h1 h2 ⊢
            exact ih h1 h2
          · rw [if_pos rfl] at h1
            rw [if_neg hbc] at h2 ⊢
            exact h2
        · by_cases hbc : b = c
          · subst hbc
            rw [if_neg hab] at h1 ⊢
            exact h1
          · rw [if_neg hab] at h1
            rw [if_neg hbc] at h2
            have hac : a < c :=
              lt_trans (of_decide_eq_true h1) (of_decide_eq_true h2)
            rw [if_neg (ne_of_lt hac)]
            exact decide_eq_true hac

theorem mountStep_eq_none (tv : List (String × VolDef)) (v : VolEntry)
    (h : excludedMount v = true) : mountStep tv v = none := by
  unfold excludedMount at h
  unfold mountStep
  cases hk : mountKey v with
  | none => rfl
  | some k =>
    rw [hk] at h
    by_cases he : k.data.isEmpty
    · simp [he]
    · simp [he] at h
      simp [he, h]

theorem filterMap_mountStep_filter (tv : List (String × VolDef)) (l : List VolEntry) :
    (l.filter (fun v => !excludedMount v)).filterMap (mountStep tv)
      = l.filterMap (mountStep tv) := by
  induction l with
  | nil => rfl
  | cons v l ih =>
    by_cases h : excludedMount v = true
    · simp [List.filter_cons, h, List.filterMap_cons, mountStep_eq_none tv v h, ih]
    · simp only [Bool.not_eq_true] at h
      simp [List.filter_cons, h, List.filterMap_cons, ih]

theorem mountStep_eq_some_iff (tv : List (String × VolDef)) (v : VolEntry) (n : String) :
    mountStep tv v = some n ↔
      ∃ k, mountKey v = some k ∧ k.data.isEmpty = false ∧ isHostPath k = false ∧
        ((∃ e, lookupName tv k = some e ∧ n = e) ∨
         (lookupName tv k = none ∧ n = k)) := by
  cases hk : mountKey v with
  | none =>
    have hm : mountStep tv v = none := by simp [mountStep, hk]
    rw [hm]
    constructor
    · intro h
      exact Option.noConfusion h
    · rintro ⟨k', hk2, -, -, -⟩
      exact Option.noConfusion hk2
  | some k =>
    by_cases he : k.data.isEmpty
    · have hm : mountStep tv v = none := by simp [mountStep, hk, he]
      rw [hm]
      constructor
      · intro h
        exact Option.noConfusion h
      · rintro ⟨k', hk2, he', -, -⟩
        injection hk2 with hkk
        subst hkk
        rw [he] at he'
        exact Bool.noConfusion he'
    · by_cases hh : isHostPath k
      · have hm : mountStep tv v = none := by simp [mountStep, hk, he, hh]
        rw [hm]
        constructor
        · intro h
          exact Option.noConfusion h
        · rintro ⟨k', hk2, -, hh', -⟩
          injection hk2 with hkk
          subst hkk
          rw [hh] at hh'
          exact Bool.noConfusion hh'
      · cases hl : lookupName tv k with
        | some e =>
          have hm : mountStep tv v = some e := by simp [mountStep, hk, he, hh, hl]
          rw [hm]
          constructor
          · intro h
            injection h with hne
            subst hne
            exact ⟨k, rfl, by simpa using he, by simpa using hh, Or.inl ⟨e, hl, rfl⟩⟩
          · rintro ⟨k', hk2, -, -, hres⟩
            injection hk2 with hkk
            subst hkk
            rcases hres with ⟨e', hl', rfl⟩ | ⟨hl', rfl⟩
            · rw [hl] at hl'
              injection hl' with hee
              rw [hee]
            · rw [hl] at hl'
              exact Option.noConfusion hl'
        | none =>
          have hm : mountStep tv v = some k := by simp [mountStep, hk, he, hh, hl]
          rw [hm]
          constructor
          · intro h
            injection h with hne
            subst hne
            exact ⟨k, rfl, by simpa using he, by simpa using hh, Or.inr ⟨hl, rfl⟩⟩
          · rintro ⟨k', hk2, -, -, hres⟩
            injection hk2 with hkk
            subst hkk
            rcases hres with ⟨e', hl', rfl⟩ | ⟨hl', rfl⟩
            · rw [hl] at hl'
              exact Option.noConfusion hl'
            · rfl

theorem relPath_isSome (e : RcloneEntry) (h : isBackupEntry e = true) :
    (relPath e).isSome = true := by
  unfold isBackupEntry at h
  cases hp : e.path with
  | none =>
    rw [hp] at h
    have h2 : (!e.isDir && false) = true := h
    rw [Bool.and_false] at h2
    exact Bool.noConfusion h2
  | some p =>
    rw [hp] at h
    cases hd : p.data with
    | nil =>
      have hzip : strEndsWith p ".zip" = false := by
        simp [strEndsWith, List.isSuffixOf, hd]
      rw [Option.getD_some, hzip, Bool.and_false] at h
      exact Bool.noConfusion h
    | cons c cs =>
      have hne : p.data.isEmpty = false := by simp [hd]
      have hgd : (e.path.getD "").data.isEmpty = false := by simp [hp, hd]
      simp [relPath, hgd, hp, hne]

theorem length_filterMap_relPath (l : List RcloneEntry)
    (h : ∀ e ∈ l, (relPath e).isSome = true) :
    (l.filterMap relPath).length = l.length := by
  induction l with
  | nil => rfl
  | cons e l ih =>
    cases hrp : relPath e with
    | none =>
      have := h e (List.mem_cons_self e l)
      rw [hrp] at this
      exact absurd this (by decide)
    | some p =>
      simp only [List.filterMap_cons, hrp, List.length_cons]
      rw [ih (fun x hx => h x (List.mem_cons_of_mem e hx))]

theorem exportEvents_shape (c : Cfg) (ok : String → Bool) (vols : List String) :
    exportEvents c ok vols =
      ((vols.takeWhile ok).map (fun v => Event.exportVol v (volArchive c v)),
       (vols.dropWhile ok).head?) := by
  induction vols with
  | nil => rfl
  | cons v vs ih =>
    by_cases h : ok v = true
    · simp [exportEvents, h, ih, List.takeWhile_cons, List.dropWhile_cons]
    · simp only [Bool.not_eq_true] at h
      simp [exportEvents, h, List.takeWhile_cons, List.dropWhile_cons]

theorem cleanupAndRotate_trace (c : Cfg) (env : Env) (t : List Event) :
    ∃ tail, (cleanupAndRotate c env t).trace = t ++ tail ∧
      ∀ e ∈ tail, e = Event.rmtree (tempDir c) ∨ e = Event.unlink (finalZip c) ∨
        e = Event.rotateCall c.remote c.remotePath c.keep := by
  unfold cleanupAndRotate
  by_cases h1 : env.rmtreeOk = true
  · rw [if_neg (by simp [h1])]
    by_cases h2 : (finalState (t ++ [Event.rmtree (tempDir c)])).contains (finalZip c) = true
    · rw [if_pos h2]
      by_cases h3 : env.unlinkOk = true
      · rw [if_neg (by simp [h3])]
        by_cases h4 : env.rotateOk = true
        · rw [if_neg (by simp [h4])]
          refine ⟨[Event.rmtree (tempDir c), Event.unlink (finalZip c),
            Event.rotateCall c.remote c.remotePath c.keep], by simp, ?_⟩
          intro e he
          simp only [List.mem_cons, List.not_mem_nil, or_false] at he
          tauto
        · rw [if_pos (by simp at h4; simp [h4])]
          refine ⟨[Event.rmtree (tempDir c), Event.unlink (finalZip c),
            Event.rotateCall c.remote c.remotePath c.keep], by simp, ?_⟩
          intro e he
          simp only [List.mem_cons, List.not_mem_nil, or_false] at he
          tauto
      · rw [if_pos (by simp at h3; simp [h3])]
        refine ⟨[Event.rmtree (tempDir c)], rfl, ?_⟩
        intro e he
        simp only [List.mem_cons, List.not_mem_nil, or_false] at he
        tauto
    · rw [if_neg h2]
      by_cases h4 : env.rotateOk = true
      · rw [if_neg (by simp [h4])]
        refine ⟨[Event.rmtree (tempDir c),
          Event.rotateCall c.remote c.remotePath c.keep], by simp, ?_⟩
        intro e he
        simp only [List.mem_cons, List.not_mem_nil, or_false] at he
        tauto
      · rw [if_pos (by simp at h4; simp [h4])]
        refine ⟨[Event.rmtree (tempDir c),
          Event.rotateCall c.remote c.remotePath c.keep], by simp, ?_⟩
        intro e he
        simp only [List.mem_cons, List.not_mem_nil, or_false] at he
        tauto
  · rw [if_pos (by simp at h1; simp [h1])]
    exact ⟨[], by simp, by intro e he; cases he⟩

theorem afterStaging_shape (c : Cfg) (env : Env) :
    ∃ tail, (afterStaging c env).trace = stagePrefix c ++ tail ∧
      ∀ e ∈ tail, isMkdirEv e = false := by
  unfold afterStaging
  by_cases hdesc : env.descriptorOk = true
  case neg =>
    rw [if_pos (by simp at hdesc; simp [hdesc])]
    exact ⟨[], by simp, by intro e he; cases he⟩
  case pos =>
  rw [if_neg (by simp [hdesc])]
  by_cases hcmd : env.cmdOk = true
  case neg =>
    rw [if_pos (by simp at hcmd; simp [hcmd])]
    exact ⟨[], by simp, by intro e he; cases he⟩
  case pos =>
  rw [if_neg (by simp [hcmd])]
  by_cases hdown : env.downOk = true
  case neg =>
    rw [if_pos (by simp at hdown; simp [hdown])]
    refine ⟨[Event.composeDown], by simp, ?_⟩
    intro e he
    simp only [List.mem_cons, List.not_mem_nil, or_false] at he
    subst he
    rfl
  case pos =>
  rw [if_neg (by simp [hdown])]
  rw [exportEvents_shape]
  have hexp : ∀ e ∈ (env.volumes.takeWhile env.exportOk).map
      (fun v => Event.exportVol v (volArchive c v)), isMkdirEv e = false := by
    intro e he
    rcases List.mem_map.mp he with ⟨v, -, rfl⟩
    rfl
  cases hdw : env.volumes.dropWhile env.exportOk with
  | cons v rest =>
    simp only [List.head?_cons]
    refine ⟨Event.composeDown :: (env.volumes.takeWhile env.exportOk).map
      (fun v => Event.exportVol v (volArchive c v)), by simp, ?_⟩
    intro e he
    simp only [List.mem_cons] at he
    rcases he with rfl | he
    · rfl
    · exact hexp e he
  | nil =>
    simp only [List.head?_nil]
    have hmem3 : ∀ e ∈ Event.composeDown :: (env.volumes.takeWhile env.exportOk).map
        (fun v => Event.exportVol v (volArchive c v)) ++ [Event.composeUp],
        isMkdirEv e = false := by
      intro e he
      simp only [List.cons_append, List.mem_cons, List.mem_append,
        List.not_mem_nil, or_false] at he
      rcases he with rfl | he | rfl
      · rfl
      · exact hexp e he
      · rfl
    by_cases hup : env.upOk = true
    case neg =>
      rw [if_pos (by simp at hup; simp [hup])]
      refine ⟨Event.composeDown :: (env.volumes.takeWhile env.exportOk).map
        (fun v => Event.exportVol v (volArchive c v)) ++ [Event.composeUp],
        by simp, hmem3⟩
    case pos =>
    rw [if_neg (by simp [hup])]
    by_cases hbun : env.bundleOk = true
    case neg =>
      rw [if_pos (by simp at hbun; simp [hbun])]
      refine ⟨Event.composeDown :: (env.volumes.takeWhile env.exportOk).map
        (fun v => Event.exportVol v (volArchive c v)) ++ [Event.composeUp],
        by simp, hmem3⟩
    case pos =>
    rw [if_neg (by simp [hbun])]
    have hmem5 : ∀ e ∈ Event.composeDown :: (env.volumes.takeWhile env.exportOk).map
        (fun v => Event.exportVol v (volArchive c v))
        ++ [Event.composeUp, Event.makeArchive (finalBase c) (tempDir c),
            Event.upload (finalZip c)], isMkdirEv e = false := by
      intro e he
      simp only [List.cons_append, List.mem_cons, List.mem_append,
        List.not_mem_nil, or_false] at he
      rcases he with rfl | he | rfl | rfl | rfl
      · rfl
      · exact hexp e he
      · rfl
      · rfl
      · rfl
    by_cases hupl : env.uploadOk = true
    case neg =>
      rw [if_pos (by simp at hupl; simp [hupl])]
      refine ⟨Event.composeDown :: (env.volumes.takeWhile env.exportOk).map
        (fun v => Event.exportVol v (volArchive c v))
        ++ [Event.composeUp, Event.makeArchive (finalBase c) (tempDir c),
            Event.upload (finalZip c)], by simp, hmem5⟩
    case pos =>
    rw [if_neg (by simp [hupl])]
    obtain ⟨ctail, hct, hcm⟩ := cleanupAndRotate_trace c env
      (stagePrefix c ++ [Event.composeDown]
        ++ (env.volumes.takeWhile env.exportOk).map
          (fun v => Event.exportVol v (volArchive c v))
        ++ [Event.composeUp]
        ++ [Event.makeArchive (finalBase c) (tempDir c), Event.upload (finalZip c)])
    refine ⟨Event.composeDown :: (env.volumes.takeWhile env.exportOk).map
      (fun v => Event.exportVol v (volArchive c v))
      ++ [Event.composeUp, Event.makeArchive (finalBase c) (tempDir c),
          Event.upload (finalZip c)] ++ ctail, ?_, ?_⟩
    · rw [hct]
      simp
    · intro e he
      simp only [List.cons_append, List.mem_cons, List.mem_append,
        List.not_mem_nil, or_false] at he
      rcases he with rfl | (he | rfl | rfl | rfl) | he
      · rfl
      · exact hexp e he
      · rfl
      · rfl
      · rfl
      · rcases hcm e he with rfl | rfl | rfl <;> rfl

theorem tempDir_ne_treeZipOutside (c : Cfg) : tempDir c ≠ treeZipOutside c := by
  intro h
  have h2 := congrArg (fun s => s.data.length) h
  have e1 : ("/.docker-backup-temp-" : String).data.length = 21 := rfl
  have e2 : ("-project-" : String).data.length = 9 := rfl
  have e3 : (".zip" : String).data.length = 4 := rfl
  simp only [tempDir, treeZipOutside, treeBase, projDir, String.data_append,
    List.length_append, e1, e2, e3] at h2
  omega

theorem finalState_stagePrefix (c : Cfg) :
    finalState (stagePrefix c) = [treeZipInTemp c, tempDir c] := by
  have hne : (tempDir c == treeZipOutside c) = false :=
    beq_eq_false_iff_ne.mpr (tempDir_ne_treeZipOutside c)
  show List.foldl applyEvent [] (stagePrefix c) = [treeZipInTemp c, tempDir c]
  simp only [stagePrefix, List.foldl_cons, List.foldl_nil, applyEvent]
  rw [show ((treeBase c ++ ".zip") : String) = treeZipOutside c from rfl]
  simp [List.filter, hne]

theorem foldl_exports (c : Cfg) (vols : List String) (st : List String) :
    List.foldl applyEvent st (vols.map (fun v => Event.exportVol v (volArchive c v)))
      = (vols.map (fun v => volArchive c v)).reverse ++ st := by
  induction vols generalizing st with
  | nil => simp
  | cons v vs ih =>
    simp only [List.map_cons, List.foldl_cons, applyEvent, ih, List.reverse_cons,
      List.append_assoc, List.singleton_append]

theorem strStarts_refl (s : String) : strStarts s s = true := by
  show s.data.isPrefixOf s.data = true
  exact List.isPrefixOf_iff_prefix.mpr (List.prefix_refl _)

theorem strStarts_treeZipInTemp (c : Cfg) :
    strStarts (treeZipInTemp c) (tempDir c) = true := by
  show (tempDir c).data.isPrefixOf (treeZipInTemp c).data = true
  unfold treeZipInTemp
  rw [List.isPrefixOf_iff_prefix]
  simp only [String.data_append, List.append_assoc]
  exact List.prefix_append _ _

theorem strStarts_volArchive (c : Cfg) (v : String) :
    strStarts (volArchive c v) (tempDir c) = true := by
  show (tempDir c).data.isPrefixOf (volArchive c v).data = true
  unfold volArchive
  rw [List.isPrefixOf_iff_prefix]
  simp only [String.data_append, List.append_assoc]
  exact List.prefix_append _ _

theorem filter_drop_under_temp (c : Cfg) (vols : List String) :
    ((vols.map (fun v => volArchive c v)).reverse
      ++ [treeZipInTemp c, tempDir c]).filter (fun x => !strStarts x (tempDir c)) = [] := by
  rw [List.filter_append]
  have h1 : (vols.map (fun v => volArchive c v)).reverse.filter
      (fun x => !strStarts x (tempDir c)) = [] := by
    rw [List.filter_eq_nil_iff]
    intro a ha
    rw [List.mem_reverse] at ha
    rcases List.mem_map.mp ha with ⟨v, -, rfl⟩
    simp [strStarts_volArchive]
  have h2 : ([treeZipInTemp c, tempDir c]).filter
      (fun x => !strStarts x (tempDir c)) = [] := by
    simp [List.filter, strStarts_treeZipInTemp, strStarts_refl]
  rw [h1, h2]
  rfl

theorem finalState_preUpload (c : Cfg) (vols : List String) :
    finalState (preUploadTrace c vols)
      = finalZip c :: ((vols.map (fun v => volArchive c v)).reverse
          ++ [treeZipInTemp c, tempDir c]) := by
  show List.foldl applyEvent [] _ = _
  simp only [preUploadTrace, List.foldl_append]
  rw [show List.foldl applyEvent ([] : List String) (stagePrefix c)
      = finalState (stagePrefix c) from rfl, finalState_stagePrefix]
  simp only [List.foldl_cons, List.foldl_nil, applyEvent]
  rw [foldl_exports]
  rfl

theorem finalState_after_rmtree (c : Cfg) (vols : List String) :
    finalState (preUploadTrace c vols ++ [Event.rmtree (tempDir c)])
      = if strStarts (finalZip c) (tempDir c) = true then [] else [finalZip c] := by
  show List.foldl applyEvent [] _ = _
  rw [List.foldl_append]
  rw [show List.foldl applyEvent ([] : List String) (preUploadTrace c vols)
      = finalState (preUploadTrace c vols) from rfl, finalState_preUpload]
  simp only [List.foldl_cons, List.foldl_nil, applyEvent]
  rw [List.filter_cons, filter_drop_under_temp]
  by_cases hp : strStarts (finalZip c) (tempDir c) = true
  · simp [hp]
  · simp only [Bool.not_eq_true] at hp
    simp [hp]

theorem filter_upload_preUpload (c : Cfg) (vols : List String) :
    (preUploadTrace c vols).filter isUploadEv = [Event.upload (finalZip c)] := by
  unfold preUploadTrace
  simp only [List.filter_append]
  have h1 : (stagePrefix c).filter isUploadEv = [] := rfl
  have h2 : ([Event.composeDown] : List Event).filter isUploadEv = [] := rfl
  have h3 : ((vols.map (fun v => Event.exportVol v (volArchive c v))).filter
      isUploadEv) = [] := by
    rw [List.filter_eq_nil_iff]
    intro a ha
    rcases List.mem_map.mp ha with ⟨v, -, rfl⟩
    simp
  have h4 : ([Event.composeUp, Event.makeArchive (finalBase c) (tempDir c),
      Event.upload (finalZip c)] : List Event).filter isUploadEv
      = [Event.upload (finalZip c)] := rfl
  rw [h1, h2, h3, h4]
  rfl

theorem mem_preUploadTrace (c : Cfg) (vols : List String) (e : Event)
    (h : e ∈ preUploadTrace c vols) :
    e = Event.makeArchive (treeBase c) (projDir c) ∨ e = Event.mkdirTemp (tempDir c) ∨
    e = Event.move (treeZipOutside c) (treeZipInTemp c) ∨ e = Event.composeDown ∨
    (∃ v, v ∈ vols ∧ e = Event.exportVol v (volArchive c v)) ∨ e = Event.composeUp ∨
    e = Event.makeArchive (finalBase c) (tempDir c) ∨ e = Event.upload (finalZip c) := by
  unfold preUploadTrace stagePrefix at h
  simp only [List.append_assoc, List.cons_append, List.nil_append, List.mem_cons,
    List.mem_append, List.not_mem_nil, or_false, List.mem_map] at h
  aesop

theorem batchLoop_no_exit (remote rp root : String) (benv : BatchEnv) (dirs : List String)
    (h : ∀ q ∈ dirs, isExitedOutcome
      (backup_project (cfgFor remote rp root benv q) (benv.projEnv q)).outcome = false) :
    batchLoop remote rp root benv dirs
      = (dirs, dirs.filterMap (failureOf remote rp root benv), none) := by
  induction dirs with
  | nil => rfl
  | cons q qs ih =>
    have hq := h q (List.mem_cons_self q qs)
    have ih2 := ih (fun r hr => h r (List.mem_cons_of_mem q hr))
    cases ho : (backup_project (cfgFor remote rp root benv q) (benv.projEnv q)).outcome with
    | exited n =>
      rw [ho] at hq
      exact absurd hq (by simp)
    | raised e =>
      have hstep : batchLoop remote rp root benv (q :: qs)
          = (q :: (batchLoop remote rp root benv qs).1,
             (q, e) :: (batchLoop remote rp root benv qs).2.1,
             (batchLoop remote rp root benv qs).2.2) := by
        simp only [batchLoop]
        rw [ho]
      have hf : failureOf remote rp root benv q = some (q, e) := by
        unfold failureOf
        rw [ho]
      rw [hstep, ih2, List.filterMap_cons, hf]
    | success z =>
      have hstep : batchLoop remote rp root benv (q :: qs)
          = (q :: (batchLoop remote rp root benv qs).1,
             (batchLoop remote rp root benv qs).2.1,
             (batchLoop remote rp root benv qs).2.2) := by
        simp only [batchLoop]
        rw [ho]
      have hf : failureOf remote rp root benv q = none := by
        unfold failureOf
        rw [ho]
      rw [hstep, ih2, List.filterMap_cons, hf]

theorem batchLoop_exit (remote rp root : String) (benv : BatchEnv) (p : String)
    (post : List String) (pre : List String)
    (hpre : ∀ q ∈ pre, isExitedOutcome
      (backup_project (cfgFor remote rp root benv q) (benv.projEnv q)).outcome = false)
    (hp : (backup_project (cfgFor remote rp root benv p) (benv.projEnv p)).outcome
      = .exited 1) :
    ∃ fs, batchLoop remote rp root benv (pre ++ p :: post) = (pre ++ [p], fs, some 1) := by
  induction pre with
  | nil =>
    refine ⟨[], ?_⟩
    simp only [List.nil_append]
    simp only [batchLoop]
    rw [hp]
  | cons q qs ih =>
    have hq := hpre q (List.mem_cons_self q qs)
    obtain ⟨fs, hfs⟩ := ih (fun r hr => hpre r (List.mem_cons_of_mem q hr))
    cases ho : (backup_project (cfgFor remote rp root benv q) (benv.projEnv q)).outcome with
    | exited n =>
      rw [ho] at hq
      exact absurd hq (by simp)
    | raised e =>
      refine ⟨(q, e) :: fs, ?_⟩
      have hstep : batchLoop remote rp root benv (q :: (qs ++ p :: post))
          = (q :: (batchLoop remote rp root benv (qs ++ p :: post)).1,
             (q, e) :: (batchLoop remote rp root benv (qs ++ p :: post)).2.1,
             (batchLoop remote rp root benv (qs ++ p :: post)).2.2) := by
        simp only [batchLoop]
        rw [ho]
      rw [List.cons_append, hstep, hfs]
      rfl
    | success z =>
      refine ⟨fs, ?_⟩
      have hstep : batchLoop remote rp root benv (q :: (qs ++ p :: post))
          = (q :: (batchLoop remote rp root benv (qs ++ p :: post)).1,
             (batchLoop remote rp root benv (qs ++ p :: post)).2.1,
             (batchLoop remote rp root benv (qs ++ p :: post)).2.2) := by
        simp only [batchLoop]
        rw [ho]
      rw [List.cons_append, hstep, hfs]
      rfl

/-! ## Claim theorems -/

/-- **C1.** For every descriptor, any service volume mount whose source
contains `/` or starts with `.` or `~` is excluded from the discovery result,
regardless of the top-level volume definitions; entries with no source
(empty string, missing `source` field, or a non-string non-mapping entry) are
likewise skipped: removing all such entries from every service leaves
`extract_named_volumes` unchanged. -/
theorem c1_excluded_mounts_invisible (d : Descriptor) :
    extract_named_volumes (dropExcluded d) = extract_named_volumes d := by
  unfold extract_named_volumes
  have hc : collectNames (dropExcluded d) = collectNames d := by
    unfold collectNames dropExcluded
    simp only []
    induction d.services with
    | nil => rfl
    | cons s ss ih =>
      simp only [List.map_cons, List.flatMap_cons, ih]
      rw [filterMap_mountStep_filter]
  rw [hc]

/-- **C2.** For every descriptor, `extract_named_volumes` returns the sorted,
duplicate-free list of resolved names, and a name is in the result exactly
when some service has a surviving mount key that resolves to it: to the
explicit external `name` when the key is defined at top level with one,
otherwise to the key itself verbatim. -/
theorem c2_sorted_dedup_resolution (d : Descriptor) :
    (extract_named_volumes d).Sorted strLE ∧ (extract_named_volumes d).Nodup ∧
      ∀ n, (n ∈ extract_named_volumes d ↔
        ∃ s ∈ d.services, ∃ v ∈ s.2, ∃ k, mountKey v = some k ∧
          k.data.isEmpty = false ∧ isHostPath k = false ∧
          ((∃ e, lookupName d.volumes k = some e ∧ n = e) ∨
           (lookupName d.volumes k = none ∧ n = k))) := by
  refine ⟨?_, ?_, ?_⟩
  · haveI : IsTotal String strLE := ⟨fun a b => lexLEb_total a.data b.data⟩
    haveI : IsTrans String strLE := ⟨fun _ _ _ h1 h2 => lexLEb_trans h1 h2⟩
    exact List.sorted_insertionSort strLE _
  · exact ((List.perm_insertionSort strLE _).nodup_iff).mpr (List.nodup_dedup _)
  · intro n
    rw [extract_named_volumes, List.mem_insertionSort, List.mem_dedup, collectNames,
      List.mem_flatMap]
    simp only [List.mem_filterMap]
    exact exists_congr fun s => and_congr_right fun _ =>
      exists_congr fun v => and_congr_right fun _ => mountStep_eq_some_iff d.volumes v n

/-- **C5.** In every run of the per-project workflow, whenever the staging
directory is created, the trace begins with the project-tree archive creation
(at `treeBase`, rooted at the project directory, i.e. outside the project
directory in its parent) immediately followed by the staging-directory
creation, and the staging directory is never created again later: the tree
archive is created strictly before the staging directory, so it cannot
contain the staging directory or anything placed in it. -/
theorem c5_tree_archive_before_staging (c : Cfg) (env : Env)
    (h : Event.mkdirTemp (tempDir c) ∈ (backup_project c env).trace) :
    ∃ rest, (backup_project c env).trace =
      Event.makeArchive (treeBase c) (projDir c) :: Event.mkdirTemp (tempDir c) :: rest ∧
      Event.mkdirTemp (tempDir c) ∉ rest := by
  unfold backup_project at h ⊢
  by_cases h1 : env.isDir = true
  case neg =>
    rw [if_pos (by simp only [Bool.not_eq_true] at h1; simp [h1])] at h
    cases h
  case pos =>
  rw [if_neg (by simp [h1])] at h ⊢
  by_cases h2 : env.treeOk = true
  case neg =>
    rw [if_pos (by simp only [Bool.not_eq_true] at h2; simp [h2])] at h
    cases h
  case pos =>
  rw [if_neg (by simp [h2])] at h ⊢
  by_cases h3 : env.tempDirExists = true
  case pos =>
    rw [if_pos h3] at h
    simp only [List.mem_singleton] at h
    exact absurd h (by simp)
  case neg =>
  rw [if_neg h3] at h ⊢
  obtain ⟨tail, htr, hmk⟩ := afterStaging_shape c env
  refine ⟨Event.move (treeZipOutside c) (treeZipInTemp c) :: tail, ?_, ?_⟩
  · rw [htr]
    rfl
  · intro hmem
    cases hmem with
    | tail b hm => exact absurd (hmk _ hm) (by simp)

/-- **C5, witness.** The ordering theorem applied to a run in which every
operation succeeds. -/
theorem c5_tree_archive_before_staging_witness :
    ∃ rest, (backup_project cfgW envAllOk).trace =
      Event.makeArchive (treeBase cfgW) (projDir cfgW) ::
        Event.mkdirTemp (tempDir cfgW) :: rest ∧
      Event.mkdirTemp (tempDir cfgW) ∉ rest :=
  c5_tree_archive_before_staging cfgW envAllOk (by decide)

/-- **C7.** If a volume export fails (after a valid project, successful tree
archive, staging, discovery, command detection and service stop), the run
aborts in a state where the stop-all-services operation was invoked exactly
once, the start-all-services operation was never invoked, the outcome is the
export failure of the first failing volume, and the staging directory still
exists containing the moved tree archive and the archive of every volume
exported before the failure. -/
theorem c7_export_failure_preserves_staging (c : Cfg) (env : Env)
    (h1 : env.isDir = true) (h2 : env.treeOk = true) (h3 : env.tempDirExists = false)
    (h4 : env.descriptorOk = true) (h5 : env.cmdOk = true) (h6 : env.downOk = true)
    (h7 : ∃ v ∈ env.volumes, env.exportOk v = false) :
    ((backup_project c env).trace.count Event.composeDown = 1) ∧
    Event.composeUp ∉ (backup_project c env).trace ∧
    (∃ v, v ∈ env.volumes ∧ env.exportOk v = false ∧
      (backup_project c env).outcome = .raised (.exportFailed v)) ∧
    tempDir c ∈ finalState (backup_project c env).trace ∧
    treeZipInTemp c ∈ finalState (backup_project c env).trace ∧
    ∀ v ∈ env.volumes.takeWhile env.exportOk,
      volArchive c v ∈ finalState (backup_project c env).trace := by
  cases hdw : env.volumes.dropWhile env.exportOk with
  | nil =>
    exfalso
    obtain ⟨v, hv, hko⟩ := h7
    have := (List.dropWhile_eq_nil_iff.mp hdw) v hv
    rw [hko] at this
    exact Bool.noConfusion this
  | cons v0 rest =>
    have hv0mem : v0 ∈ env.volumes := by
      have hsub : env.volumes.dropWhile env.exportOk <:+ env.volumes :=
        List.dropWhile_suffix env.exportOk
      exact hsub.subset (by rw [hdw]; exact List.mem_cons_self v0 rest)
    have hv0ko : env.exportOk v0 = false := by
      have := List.head?_dropWhile_not env.exportOk env.volumes
      rw [hdw] at this
      simpa using this
    have hred : backup_project c env =
        ⟨stagePrefix c ++ [Event.composeDown]
          ++ (env.volumes.takeWhile env.exportOk).map
            (fun v => Event.exportVol v (volArchive c v)),
         .raised (.exportFailed v0)⟩ := by
      unfold backup_project afterStaging
      rw [if_neg (by simp [h1]), if_neg (by simp [h2]), if_neg (by simp [h3]),
        if_neg (by simp [h4]), if_neg (by simp [h5]), if_neg (by simp [h6]),
        exportEvents_shape]
      simp only [hdw, List.head?_cons]
    rw [hred]
    have hes0 : ∀ e ∈ (env.volumes.takeWhile env.exportOk).map
        (fun v => Event.exportVol v (volArchive c v)), e ≠ Event.composeDown ∧
          e ≠ Event.composeUp := by
      intro e he
      rcases List.mem_map.mp he with ⟨v, -, rfl⟩
      exact ⟨fun hx => Event.noConfusion hx, fun hx => Event.noConfusion hx⟩
    have hstate : finalState (stagePrefix c ++ [Event.composeDown]
        ++ (env.volumes.takeWhile env.exportOk).map
          (fun v => Event.exportVol v (volArchive c v)))
        = ((env.volumes.takeWhile env.exportOk).map
            (fun v => volArchive c v)).reverse ++ [treeZipInTemp c, tempDir c] := by
      show List.foldl applyEvent [] _ = _
      rw [List.append_assoc, List.foldl_append, List.foldl_append, foldl_exports]
      congr 1
      rw [show (List.foldl applyEvent [] (stagePrefix c)) = finalState (stagePrefix c)
          from rfl, finalState_stagePrefix]
      rfl
    refine ⟨?_, ?_, ⟨v0, hv0mem, hv0ko, rfl⟩, ?_, ?_, ?_⟩
    · show List.count Event.composeDown _ = 1
      rw [List.count_append, List.count_append]
      have hz : List.count Event.composeDown ((env.volumes.takeWhile env.exportOk).map
          (fun v => Event.exportVol v (volArchive c v))) = 0 :=
        List.count_eq_zero.mpr (fun hm => (hes0 _ hm).1 rfl)
      rw [hz]
      rfl
    · intro hm
      rcases List.mem_append.mp hm with hm | hm
      · rcases List.mem_append.mp hm with hm | hm
        · simp [stagePrefix] at hm
        · simp only [List.mem_singleton] at hm
          exact Event.noConfusion hm
      · exact (hes0 _ hm).2 rfl
    · rw [hstate]
      exact List.mem_append_right _ (by simp)
    · rw [hstate]
      exact List.mem_append_right _ (by simp)
    · intro v hv
      rw [hstate]
      exact List.mem_append_left _ (by
        rw [List.mem_reverse]
        exact List.mem_map.mpr ⟨v, hv, rfl⟩)

/-- **C7, witness.** The export-failure theorem applied to a run that fails
while exporting volume `dbdata` (the export of `data` having succeeded). -/
theorem c7_export_failure_preserves_staging_witness :
    (envExportFail.isDir = true ∧ (∃ v ∈ envExportFail.volumes,
      envExportFail.exportOk v = false)) ∧
    (((backup_project cfgW envExportFail).trace.count Event.composeDown = 1) ∧
    Event.composeUp ∉ (backup_project cfgW envExportFail).trace ∧
    (∃ v, v ∈ envExportFail.volumes ∧ envExportFail.exportOk v = false ∧
      (backup_project cfgW envExportFail).outcome = .raised (.exportFailed v)) ∧
    tempDir cfgW ∈ finalState (backup_project cfgW envExportFail).trace ∧
    treeZipInTemp cfgW ∈ finalState (backup_project cfgW envExportFail).trace ∧
    ∀ v ∈ envExportFail.volumes.takeWhile envExportFail.exportOk,
      volArchive cfgW v ∈ finalState (backup_project cfgW envExportFail).trace) :=
  ⟨⟨rfl, by decide⟩,
   c7_export_failure_preserves_staging cfgW envExportFail rfl rfl rfl rfl rfl rfl
     (by decide)⟩

/-- **C6.** In every run: (a) if any local artifact is deleted (the staging
directory via `rmtree` or the final bundle via `unlink`), the upload
succeeded and the trace splits as a deletion-free prefix, the upload of the
final bundle, and a suffix — nothing local is deleted before the upload of
the final bundle succeeds; and (b) on a fully successful run the returned
final-zip path is `<projectDir>/<projectName>-<timestamp>.zip`, no created
path (staging directory, tree archive at either location, volume archives,
final bundle) still exists, and exactly one upload was performed, of the
final bundle. -/
theorem c6_upload_durability (c : Cfg) (env : Env) :
    ((∃ e ∈ (backup_project c env).trace, isDeletion e = true) →
      env.uploadOk = true ∧ ∃ t1 t2, (backup_project c env).trace =
        t1 ++ Event.upload (finalZip c) :: t2 ∧ ∀ e ∈ t1, isDeletion e = false) ∧
    (∀ z, (backup_project c env).outcome = RunOutcome.success z →
      z = finalZip c ∧ finalState (backup_project c env).trace = [] ∧
      (backup_project c env).trace.filter isUploadEv = [Event.upload (finalZip c)]) := by
  have base : ∀ r : RunResult, (∀ e ∈ r.trace, isDeletion e = false) →
      (∀ z, r.outcome ≠ RunOutcome.success z) →
      ((∃ e ∈ r.trace, isDeletion e = true) →
        env.uploadOk = true ∧ ∃ t1 t2, r.trace =
          t1 ++ Event.upload (finalZip c) :: t2 ∧ ∀ e ∈ t1, isDeletion e = false) ∧
      (∀ z, r.outcome = RunOutcome.success z →
        z = finalZip c ∧ finalState r.trace = [] ∧
        r.trace.filter isUploadEv = [Event.upload (finalZip c)]) := by
    intro r hnd hns
    constructor
    · rintro ⟨e, he, hdel⟩
      rw [hnd e he] at hdel
      exact Bool.noConfusion hdel
    · intro z hz
      exact absurd hz (hns z)
  have hndStage : ∀ e ∈ stagePrefix c, isDeletion e = false := by
    intro e he
    simp only [stagePrefix, List.mem_cons, List.not_mem_nil, or_false] at he
    rcases he with rfl | rfl | rfl <;> rfl
  have hndMap : ∀ e ∈ (env.volumes.takeWhile env.exportOk).map
      (fun v => Event.exportVol v (volArchive c v)), isDeletion e = false := by
    intro e he
    rcases List.mem_map.mp he with ⟨v, -, rfl⟩
    rfl
  by_cases h1 : env.isDir = true
  case neg =>
    have hred : backup_project c env = ⟨[], .raised .notADir⟩ := by
      unfold backup_project
      rw [if_pos (by simp only [Bool.not_eq_true] at h1; simp [h1])]
    rw [hred]
    exact base _ (by intro e he; cases he) (by intro z hz; cases hz)
  case pos =>
  by_cases h2 : env.treeOk = true
  case neg =>
    have hred : backup_project c env = ⟨[], .raised .treeArchiveFailed⟩ := by
      unfold backup_project
      rw [if_neg (by simp [h1]), if_pos (by simp only [Bool.not_eq_true] at h2; simp [h2])]
    rw [hred]
    exact base _ (by intro e he; cases he) (by intro z hz; cases hz)
  case pos =>
  by_cases h3 : env.tempDirExists = true
  case pos =>
    have hred : backup_project c env
        = ⟨[Event.makeArchive (treeBase c) (projDir c)], .exited 1⟩ := by
      unfold backup_project
      rw [if_neg (by simp [h1]), if_neg (by simp [h2]), if_pos h3]
    rw [hred]
    refine base _ ?_ (by intro z hz; cases hz)
    intro e he
    simp only [List.mem_singleton] at he
    subst he
    rfl
  case neg =>
  have hIf3 : ¬(env.tempDirExists = true) := h3
  by_cases h4 : env.descriptorOk = true
  case neg =>
    have hred : backup_project c env = ⟨stagePrefix c, .raised .composeFileNotFound⟩ := by
      unfold backup_project afterStaging
      rw [if_neg (by simp [h1]), if_neg (by simp [h2]), if_neg hIf3,
        if_pos (by simp only [Bool.not_eq_true] at h4; simp [h4])]
    rw [hred]
    exact base _ hndStage (by intro z hz; cases hz)
  case pos =>
  by_cases h5 : env.cmdOk = true
  case neg =>
    have hred : backup_project c env = ⟨stagePrefix c, .raised .composeCmdNotFound⟩ := by
      unfold backup_project afterStaging
      rw [if_neg (by simp [h1]), if_neg (by simp [h2]), if_neg hIf3,
        if_neg (by simp [h4]), if_pos (by simp only [Bool.not_eq_true] at h5; simp [h5])]
    rw [hred]
    exact base _ hndStage (by intro z hz; cases hz)
  case pos =>
  by_cases h6 : env.downOk = true
  case neg =>
    have hred : backup_project c env
        = ⟨stagePrefix c ++ [Event.composeDown], .raised .downFailed⟩ := by
      unfold backup_project afterStaging
      rw [if_neg (by simp [h1]), if_neg (by simp [h2]), if_neg hIf3,
        if_neg (by simp [h4]), if_neg (by simp [h5]),
        if_pos (by simp only [Bool.not_eq_true] at h6; simp [h6])]
    rw [hred]
    refine base _ ?_ (by intro z hz; cases hz)
    intro e he
    rcases List.mem_append.mp he with he | he
    · exact hndStage e he
    · simp only [List.mem_singleton] at he
      subst he
      rfl
  case pos =>
  cases hdw : env.volumes.dropWhile env.exportOk with
  | cons v0 rest =>
    have hred : backup_project c env =
        ⟨stagePrefix c ++ [Event.composeDown]
          ++ (env.volumes.takeWhile env.exportOk).map
            (fun v => Event.exportVol v (volArchive c v)),
         .raised (.exportFailed v0)⟩ := by
      unfold backup_project afterStaging
      rw [if_neg (by simp [h1]), if_neg (by simp [h2]), if_neg hIf3,
        if_neg (by simp [h4]), if_neg (by simp [h5]), if_neg (by simp [h6]),
        exportEvents_shape]
      simp only [hdw, List.head?_cons]
    rw [hred]
    refine base _ ?_ (by intro z hz; cases hz)
    intro e he
    rcases List.mem_append.mp he with he | he
    · rcases List.mem_append.mp he with he | he
      · exact hndStage e he
      · simp only [List.mem_singleton] at he
        subst he
        rfl
    · exact hndMap e he
  | nil =>
  have hndT3 : ∀ e ∈ stagePrefix c ++ [Event.composeDown]
      ++ (env.volumes.takeWhile env.exportOk).map
        (fun v => Event.exportVol v (volArchive c v)) ++ [Event.composeUp],
      isDeletion e = false := by
    intro e he
    rcases List.mem_append.mp he with he | he
    · rcases List.mem_append.mp he with he | he
      · rcases List.mem_append.mp he with he | he
        · exact hndStage e he
        · simp only [List.mem_singleton] at he
          subst he
          rfl
      · exact hndMap e he
    · simp only [List.mem_singleton] at he
      subst he
      rfl
  by_cases h7 : env.upOk = true
  case neg =>
    have hred : backup_project c env =
        ⟨stagePrefix c ++ [Event.composeDown]
          ++ (env.volumes.takeWhile env.exportOk).map
            (fun v => Event.exportVol v (volArchive c v)) ++ [Event.composeUp],
         .raised .upFailed⟩ := by
      unfold backup_project afterStaging
      rw [if_neg (by simp [h1]), if_neg (by simp [h2]), if_neg hIf3,
        if_neg (by simp [h4]), if_neg (by simp [h5]), if_neg (by simp [h6]),
        exportEvents_shape]
      simp only [hdw, List.head?_nil]
      rw [if_pos (by simp only [Bool.not_eq_true] at h7; simp [h7])]
    rw [hred]
    exact base _ hndT3 (by intro z hz; cases hz)
  case pos =>
  by_cases h8 : env.bundleOk = true
  case neg =>
    have hred : backup_project c env =
        ⟨stagePrefix c ++ [Event.composeDown]
          ++ (env.volumes.takeWhile env.exportOk).map
            (fun v => Event.exportVol v (volArchive c v)) ++ [Event.composeUp],
         .raised .bundleFailed⟩ := by
      unfold backup_project afterStaging
      rw [if_neg (by simp [h1]), if_neg (by simp [h2]), if_neg hIf3,
        if_neg (by simp [h4]), if_neg (by simp [h5]), if_neg (by simp [h6]),
        exportEvents_shape]
      simp only [hdw, List.head?_nil]
      rw [if_neg (by simp [h7]), if_pos (by simp only [Bool.not_eq_true] at h8; simp [h8])]
    rw [hred]
    exact base _ hndT3 (by intro z hz; cases hz)
  case pos =>
  have hpreU : stagePrefix c ++ [Event.composeDown]
      ++ (env.volumes.takeWhile env.exportOk).map
        (fun v => Event.exportVol v (volArchive c v)) ++ [Event.composeUp]
      ++ [Event.makeArchive (finalBase c) (tempDir c), Event.upload (finalZip c)]
      = preUploadTrace c (env.volumes.takeWhile env.exportOk) := by
    simp [preUploadTrace, List.append_assoc]
  have hndPre : ∀ e ∈ preUploadTrace c (env.volumes.takeWhile env.exportOk),
      isDeletion e = false ∨ isUploadEv e = true := by
    intro e he
    rw [← hpreU] at he
    rcases List.mem_append.mp he with he | he
    · exact Or.inl (hndT3 e he)
    · simp only [List.mem_cons, List.not_mem_nil, or_false] at he
      rcases he with rfl | rfl
      · exact Or.inl rfl
      · exact Or.inr rfl
  by_cases h9 : env.uploadOk = true
  case neg =>
    have hred : backup_project c env =
        ⟨preUploadTrace c (env.volumes.takeWhile env.exportOk), .raised .uploadFailed⟩ := by
      unfold backup_project afterStaging
      rw [if_neg (by simp [h1]), if_neg (by simp [h2]), if_neg hIf3,
        if_neg (by simp [h4]), if_neg (by simp [h5]), if_neg (by simp [h6]),
        exportEvents_shape]
      simp only [hdw, List.head?_nil]
      rw [if_neg (by simp [h7]), if_neg (by simp [h8]),
        if_pos (by simp only [Bool.not_eq_true] at h9; simp [h9])]
      rw [show (⟨stagePrefix c ++ [Event.composeDown]
        ++ (env.volumes.takeWhile env.exportOk).map
          (fun v => Event.exportVol v (volArchive c v)) ++ [Event.composeUp]
        ++ [Event.makeArchive (finalBase c) (tempDir c), Event.upload (finalZip c)],
        RunOutcome.raised .uploadFailed⟩ : RunResult)
        = ⟨preUploadTrace c (env.volumes.takeWhile env.exportOk),
           RunOutcome.raised .uploadFailed⟩ from by rw [hpreU]]
    rw [hred]
    refine base _ ?_ (by intro z hz; cases hz)
    intro e he
    rw [← hpreU] at he
    rcases List.mem_append.mp he with he | he
    · exact hndT3 e he
    · simp only [List.mem_cons, List.not_mem_nil, or_false] at he
      rcases he with rfl | rfl <;> rfl
  case pos =>
  have hred : backup_project c env
      = cleanupAndRotate c env (preUploadTrace c (env.volumes.takeWhile env.exportOk)) := by
    unfold backup_project afterStaging
    rw [if_neg (by simp [h1]), if_neg (by simp [h2]), if_neg hIf3,
      if_neg (by simp [h4]), if_neg (by simp [h5]), if_neg (by simp [h6]),
      exportEvents_shape]
    simp only [hdw, List.head?_nil]
    rw [if_neg (by simp [h7]), if_neg (by simp [h8]), if_neg (by simp [h9]), hpreU]
  rw [hred]
  -- shorthand for the deletion-free prefix before the upload
  have hpre1 : preUploadTrace c (env.volumes.takeWhile env.exportOk)
      = (stagePrefix c ++ [Event.composeDown]
          ++ (env.volumes.takeWhile env.exportOk).map
            (fun v => Event.exportVol v (volArchive c v))
          ++ [Event.composeUp, Event.makeArchive (finalBase c) (tempDir c)])
        ++ [Event.upload (finalZip c)] := by
    simp [preUploadTrace, List.append_assoc]
  have hndT1 : ∀ e ∈ stagePrefix c ++ [Event.composeDown]
      ++ (env.volumes.takeWhile env.exportOk).map
        (fun v => Event.exportVol v (volArchive c v))
      ++ [Event.composeUp, Event.makeArchive (finalBase c) (tempDir c)],
      isDeletion e = false := by
    intro e he
    rcases List.mem_append.mp he with he | he
    · rcases List.mem_append.mp he with he | he
      · rcases List.mem_append.mp he with he | he
        · exact hndStage e he
        · simp only [List.mem_singleton] at he
          subst he
          rfl
      · exact hndMap e he
    · simp only [List.mem_cons, List.not_mem_nil, or_false] at he
      rcases he with rfl | rfl <;> rfl
  have hst5 := finalState_after_rmtree c (env.volumes.takeWhile env.exportOk)
  unfold cleanupAndRotate
  by_cases h10 : env.rmtreeOk = true
  case neg =>
    rw [if_pos (by simp only [Bool.not_eq_true] at h10; simp [h10])]
    refine base _ ?_ (by intro z hz; cases hz)
    intro e he
    rcases hndPre e he with hn | hu
    · exact hn
    · rw [← hpreU] at he
      rcases List.mem_append.mp he with he | he
      · exact hndT3 e he
      · simp only [List.mem_cons, List.not_mem_nil, or_false] at he
        rcases he with rfl | rfl <;> rfl
  case pos =>
  rw [if_neg (by simp [h10])]
  have hup1 : ∀ L : List Event,
      (preUploadTrace c (env.volumes.takeWhile env.exportOk) ++ L)
      = (stagePrefix c ++ [Event.composeDown]
          ++ (env.volumes.takeWhile env.exportOk).map
            (fun v => Event.exportVol v (volArchive c v))
          ++ [Event.composeUp, Event.makeArchive (finalBase c) (tempDir c)])
        ++ Event.upload (finalZip c) :: L := by
    intro L
    rw [hpre1]
    simp [List.append_assoc]
  by_cases hcont : (finalState (preUploadTrace c (env.volumes.takeWhile env.exportOk)
      ++ [Event.rmtree (tempDir c)])).contains (finalZip c) = true
  case pos =>
    rw [if_pos hcont]
    have hp : strStarts (finalZip c) (tempDir c) = false := by
      by_cases hp0 : strStarts (finalZip c) (tempDir c) = true
      · rw [hst5] at hcont
        simp [hp0] at hcont
      · simp only [Bool.not_eq_true] at hp0
        exact hp0
    have hst5v : finalState (preUploadTrace c (env.volumes.takeWhile env.exportOk)
        ++ [Event.rmtree (tempDir c)]) = [finalZip c] := by
      rw [hst5, hp]
      simp
    by_cases h11 : env.unlinkOk = true
    case neg =>
      rw [if_pos (by simp only [Bool.not_eq_true] at h11; simp [h11])]
      constructor
      · intro _hdel
        refine ⟨h9, _, [Event.rmtree (tempDir c)], hup1 _, hndT1⟩
      · intro z hz
        cases hz
    case pos =>
    rw [if_neg (by simp [h11])]
    have htrace : ((preUploadTrace c (env.volumes.takeWhile env.exportOk)
        ++ [Event.rmtree (tempDir c)]) ++ [Event.unlink (finalZip c)])
        ++ [Event.rotateCall c.remote c.remotePath c.keep]
        = preUploadTrace c (env.volumes.takeWhile env.exportOk)
          ++ [Event.rmtree (tempDir c), Event.unlink (finalZip c),
              Event.rotateCall c.remote c.remotePath c.keep] := by
      simp [List.append_assoc]
    have hstate0 : finalState (((preUploadTrace c (env.volumes.takeWhile env.exportOk)
        ++ [Event.rmtree (tempDir c)]) ++ [Event.unlink (finalZip c)])
        ++ [Event.rotateCall c.remote c.remotePath c.keep]) = [] := by
      show List.foldl applyEvent [] _ = _
      rw [List.foldl_append, List.foldl_append]
      rw [show List.foldl applyEvent ([] : List String)
          (preUploadTrace c (env.volumes.takeWhile env.exportOk)
            ++ [Event.rmtree (tempDir c)])
          = finalState (preUploadTrace c (env.volumes.takeWhile env.exportOk)
            ++ [Event.rmtree (tempDir c)]) from rfl, hst5v]
      simp [applyEvent]
    have hfilter0 : (((preUploadTrace c (env.volumes.takeWhile env.exportOk)
        ++ [Event.rmtree (tempDir c)]) ++ [Event.unlink (finalZip c)])
        ++ [Event.rotateCall c.remote c.remotePath c.keep]).filter isUploadEv
        = [Event.upload (finalZip c)] := by
      simp only [List.filter_append, filter_upload_preUpload]
      rfl
    by_cases h12 : env.rotateOk = true
    case neg =>
      rw [if_pos (by simp only [Bool.not_eq_true] at h12; simp [h12])]
      constructor
      · intro _hdel
        refine ⟨h9, _, [Event.rmtree (tempDir c), Event.unlink (finalZip c),
          Event.rotateCall c.remote c.remotePath c.keep], ?_, hndT1⟩
        rw [htrace]
        exact hup1 _
      · intro z hz
        cases hz
    case pos =>
      rw [if_neg (by simp [h12])]
      constructor
      · intro _hdel
        refine ⟨h9, _, [Event.rmtree (tempDir c), Event.unlink (finalZip c),
          Event.rotateCall c.remote c.remotePath c.keep], ?_, hndT1⟩
        rw [htrace]
        exact hup1 _
      · intro z hz
        injection hz with hzz
        refine ⟨hzz.symm, hstate0, hfilter0⟩
  case neg =>
    rw [if_neg hcont]
    have hst5v : finalState (preUploadTrace c (env.volumes.takeWhile env.exportOk)
        ++ [Event.rmtree (tempDir c)]) = [] := by
      by_cases hp0 : strStarts (finalZip c) (tempDir c) = true
      · rw [hst5]
        simp [hp0]
      · exfalso
        simp only [Bool.not_eq_true] at hp0
        rw [hst5, hp0] at hcont
        simp at hcont
    have htrace : (preUploadTrace c (env.volumes.takeWhile env.exportOk)
        ++ [Event.rmtree (tempDir c)])
        ++ [Event.rotateCall c.remote c.remotePath c.keep]
        = preUploadTrace c (env.volumes.takeWhile env.exportOk)
          ++ [Event.rmtree (tempDir c),
              Event.rotateCall c.remote c.remotePath c.keep] := by
      simp [List.append_assoc]
    have hstate0 : finalState ((preUploadTrace c (env.volumes.takeWhile env.exportOk)
        ++ [Event.rmtree (tempDir c)])
        ++ [Event.rotateCall c.remote c.remotePath c.keep]) = [] := by
      show List.foldl applyEvent [] _ = _
      rw [List.foldl_append]
      rw [show List.foldl applyEvent ([] : List String)
          (preUploadTrace c (env.volumes.takeWhile env.exportOk)
            ++ [Event.rmtree (tempDir c)])
          = finalState (preUploadTrace c (env.volumes.takeWhile env.exportOk)
            ++ [Event.rmtree (tempDir c)]) from rfl, hst5v]
      simp [applyEvent]
    have hfilter0 : ((preUploadTrace c (env.volumes.takeWhile env.exportOk)
        ++ [Event.rmtree (tempDir c)])
        ++ [Event.rotateCall c.remote c.remotePath c.keep]).filter isUploadEv
        = [Event.upload (finalZip c)] := by
      simp only [List.filter_append, filter_upload_preUpload]
      rfl
    by_cases h12 : env.rotateOk = true
    case neg =>
      rw [if_pos (by simp only [Bool.not_eq_true] at h12; simp [h12])]
      constructor
      · intro _hdel
        refine ⟨h9, _, [Event.rmtree (tempDir c),
          Event.rotateCall c.remote c.remotePath c.keep], ?_, hndT1⟩
        rw [htrace]
        exact hup1 _
      · intro z hz
        cases hz
    case pos =>
      rw [if_neg (by simp [h12])]
      constructor
      · intro _hdel
        refine ⟨h9, _, [Event.rmtree (tempDir c),
          Event.rotateCall c.remote c.remotePath c.keep], ?_, hndT1⟩
        rw [htrace]
        exact hup1 _
      · intro z hz
        injection hz with hzz
        refine ⟨hzz.symm, hstate0, hfilter0⟩

/-- **C6, witness.** The durability theorem applied to a fully successful
run: the premise of part (a) holds (the staging directory is deleted), and
part (b) applies to the successful outcome. -/
theorem c6_upload_durability_witness :
    ((∃ e ∈ (backup_project cfgW envAllOk).trace, isDeletion e = true) →
      envAllOk.uploadOk = true ∧ ∃ t1 t2, (backup_project cfgW envAllOk).trace =
        t1 ++ Event.upload (finalZip cfgW) :: t2 ∧ ∀ e ∈ t1, isDeletion e = false) ∧
    (∀ z, (backup_project cfgW envAllOk).outcome = RunOutcome.success z →
      z = finalZip cfgW ∧ finalState (backup_project cfgW envAllOk).trace = [] ∧
      (backup_project cfgW envAllOk).trace.filter isUploadEv
        = [Event.upload (finalZip cfgW)]) :=
  c6_upload_durability cfgW envAllOk

/-- **C8, counterexample.** A run in which everything up to and including
the upload succeeds and rotation would succeed, but deleting the staging
directory fails: the run does not proceed to rotation and does not report
success — the cleanup failure is escalated through the generic error
handler, refuting "logged but never escalated". -/
theorem c8_counterexample_cleanup_fatal :
    envCleanupFail.uploadOk = true ∧ envCleanupFail.rotateOk = true ∧
    (backup_project cfgW envCleanupFail).outcome = .raised .rmtreeFailed ∧
    Event.upload (finalZip cfgW) ∈ (backup_project cfgW envCleanupFail).trace ∧
    ((backup_project cfgW envCleanupFail).trace.all (fun e => !isRotateEv e)) = true :=
  ⟨rfl, rfl, rfl, by decide, rfl⟩

/-- **C8, amended.** A failure while deleting the staging directory or the
local final bundle during the cleanup stage (after a successful upload) is
caught by the generic `except` handler, reported, and re-raised: the run
fails with that cleanup error, rotation is never invoked, and the upload has
already happened (the remote copy exists). -/
theorem c8_cleanup_failure_escalates (c : Cfg) (env : Env)
    (h1 : env.isDir = true) (h2 : env.treeOk = true) (h3 : env.tempDirExists = false)
    (h4 : env.descriptorOk = true) (h5 : env.cmdOk = true) (h6 : env.downOk = true)
    (hexp : ∀ v ∈ env.volumes, env.exportOk v = true)
    (h7 : env.upOk = true) (h8 : env.bundleOk = true) (h9 : env.uploadOk = true)
    (hwf : strStarts (finalZip c) (tempDir c) = false)
    (hfail : env.rmtreeOk = false ∨ env.unlinkOk = false) :
    (∃ e, (backup_project c env).outcome = .raised e ∧
      (e = BErr.rmtreeFailed ∨ e = BErr.unlinkFailed)) ∧
    Event.upload (finalZip c) ∈ (backup_project c env).trace ∧
    ∀ e ∈ (backup_project c env).trace, isRotateEv e = false := by
  have hdw : env.volumes.dropWhile env.exportOk = [] :=
    List.dropWhile_eq_nil_iff.mpr hexp
  have hIf3 : ¬(env.tempDirExists = true) := by simp [h3]
  have hpreU : stagePrefix c ++ [Event.composeDown]
      ++ (env.volumes.takeWhile env.exportOk).map
        (fun v => Event.exportVol v (volArchive c v)) ++ [Event.composeUp]
      ++ [Event.makeArchive (finalBase c) (tempDir c), Event.upload (finalZip c)]
      = preUploadTrace c (env.volumes.takeWhile env.exportOk) := by
    simp [preUploadTrace, List.append_assoc]
  have hred : backup_project c env
      = cleanupAndRotate c env (preUploadTrace c (env.volumes.takeWhile env.exportOk)) := by
    unfold backup_project afterStaging
    rw [if_neg (by simp [h1]), if_neg (by simp [h2]), if_neg hIf3,
      if_neg (by simp [h4]), if_neg (by simp [h5]), if_neg (by simp [h6]),
      exportEvents_shape]
    simp only [hdw, List.head?_nil]
    rw [if_neg (by simp [h7]), if_neg (by simp [h8]), if_neg (by simp [h9]), hpreU]
  have hupl : Event.upload (finalZip c)
      ∈ preUploadTrace c (env.volumes.takeWhile env.exportOk) := by
    rw [← hpreU]
    exact List.mem_append_right _ (by simp)
  have hnr : ∀ e ∈ preUploadTrace c (env.volumes.takeWhile env.exportOk),
      isRotateEv e = false := by
    intro e he
    rcases mem_preUploadTrace c _ e he with
      rfl | rfl | rfl | rfl | ⟨v, -, rfl⟩ | rfl | rfl | rfl <;> rfl
  rw [hred]
  unfold cleanupAndRotate
  by_cases h10 : env.rmtreeOk = true
  case neg =>
    rw [if_pos (by simp only [Bool.not_eq_true] at h10; simp [h10])]
    exact ⟨⟨BErr.rmtreeFailed, rfl, Or.inl rfl⟩, hupl, hnr⟩
  case pos =>
  rw [if_neg (by simp [h10])]
  have h11 : env.unlinkOk = false := by
    rcases hfail with hf | hf
    · rw [h10] at hf
      exact Bool.noConfusion hf
    · exact hf
  have hst5v : finalState (preUploadTrace c (env.volumes.takeWhile env.exportOk)
      ++ [Event.rmtree (tempDir c)]) = [finalZip c] := by
    rw [finalState_after_rmtree, hwf]
    simp
  rw [if_pos (by rw [hst5v]; simp)]
  rw [if_pos (by simp [h11])]
  refine ⟨⟨BErr.unlinkFailed, rfl, Or.inr rfl⟩, List.mem_append_left _ hupl, ?_⟩
  intro e he
  rcases List.mem_append.mp he with he | he
  · exact hnr e he
  · simp only [List.mem_singleton] at he
    subst he
    rfl

/-- **C8, witness.** The amended escalation theorem applied to a concrete
run whose staging-directory removal fails after a successful upload. -/
theorem c8_cleanup_failure_escalates_witness :
    ((∀ v ∈ envCleanupFail.volumes, envCleanupFail.exportOk v = true) ∧
      (envCleanupFail.rmtreeOk = false ∨ envCleanupFail.unlinkOk = false) ∧
      strStarts (finalZip cfgW) (tempDir cfgW) = false) ∧
    ((∃ e, (backup_project cfgW envCleanupFail).outcome = .raised e ∧
      (e = BErr.rmtreeFailed ∨ e = BErr.unlinkFailed)) ∧
    Event.upload (finalZip cfgW) ∈ (backup_project cfgW envCleanupFail).trace ∧
    ∀ e ∈ (backup_project cfgW envCleanupFail).trace, isRotateEv e = false) :=
  ⟨⟨by decide, Or.inl rfl, by decide⟩,
   c8_cleanup_failure_escalates cfgW envCleanupFail rfl rfl rfl rfl rfl rfl
     (by decide) rfl rfl rfl (by decide) (Or.inl rfl)⟩

/-- **C9, counterexample.** A projects root with two project directories,
`alpha` and `beta` (sorted order `[alpha, beta]`), where `alpha` hits the
staging-directory collision: `sys.exit(1)` raises `SystemExit`, which
`except Exception` does not catch, so the batch aborts and the per-project
workflow is never run for `beta` — refuting "any exception from one project
is caught and recorded so subsequent projects still run". -/
theorem c9_counterexample_exit_aborts_batch :
    iter_project_dirs benvCollision.listing = ["alpha", "beta"] ∧
    backup_all_projects "remote" "backups" "/projects" benvCollision
      = ⟨["alpha"], [], .exitedEarly 1⟩ :=
  ⟨rfl, rfl⟩

/-- **C9, amended.** In the batch workflow over a root directory with at
least one immediate subdirectory, provided no project hits the
process-terminating staging-collision `sys.exit(1)`: the per-project
workflow is run for every immediate subdirectory in sorted name order (the
attempted list is exactly the sorted directory names); any exception from
one project is caught and recorded so subsequent projects still run (the
recorded failures are exactly the per-project failures, in order); and the
batch succeeds exactly when every project succeeded, otherwise it fails
with an aggregate error naming each failed project and its error. -/
theorem c9_batch_isolation (remote rp root : String) (benv : BatchEnv)
    (hroot : benv.rootIsDir = true)
    (hne : iter_project_dirs benv.listing ≠ [])
    (hnoexit : ∀ p ∈ iter_project_dirs benv.listing, isExitedOutcome
      (backup_project (cfgFor remote rp root benv p) (benv.projEnv p)).outcome = false) :
    (backup_all_projects remote rp root benv).attempted = iter_project_dirs benv.listing ∧
    (iter_project_dirs benv.listing).Sorted strLE ∧
    (∀ nm, nm ∈ iter_project_dirs benv.listing ↔ (nm, true) ∈ benv.listing) ∧
    (backup_all_projects remote rp root benv).failed
      = (iter_project_dirs benv.listing).filterMap (failureOf remote rp root benv) ∧
    ((backup_all_projects remote rp root benv).failed = [] →
      (backup_all_projects remote rp root benv).outcome = .ok) ∧
    ((backup_all_projects remote rp root benv).failed ≠ [] →
      (backup_all_projects remote rp root benv).outcome
        = .failures (backup_all_projects remote rp root benv).failed) := by
  have hbl := batchLoop_no_exit remote rp root benv _ hnoexit
  have hred : backup_all_projects remote rp root benv
      = ⟨iter_project_dirs benv.listing,
         (iter_project_dirs benv.listing).filterMap (failureOf remote rp root benv),
         if ((iter_project_dirs benv.listing).filterMap
              (failureOf remote rp root benv)).isEmpty then .ok
         else .failures ((iter_project_dirs benv.listing).filterMap
              (failureOf remote rp root benv))⟩ := by
    unfold backup_all_projects
    rw [if_neg (by simp [hroot]), if_neg (by simp only [List.isEmpty_iff]; exact hne), hbl]
  have ha : (backup_all_projects remote rp root benv).attempted
      = iter_project_dirs benv.listing := by rw [hred]
  have hfl : (backup_all_projects remote rp root benv).failed
      = (iter_project_dirs benv.listing).filterMap (failureOf remote rp root benv) := by
    rw [hred]
  have ho : (backup_all_projects remote rp root benv).outcome
      = if ((iter_project_dirs benv.listing).filterMap
              (failureOf remote rp root benv)).isEmpty then .ok
        else .failures ((iter_project_dirs benv.listing).filterMap
              (failureOf remote rp root benv)) := by
    rw [hred]
  refine ⟨ha, ?_, ?_, hfl, ?_, ?_⟩
  · have hs0 : (benv.listing.insertionSort pairNameLE).Sorted pairNameLE := by
      haveI : IsTotal (String × Bool) pairNameLE := ⟨fun a b => lexLEb_total a.1.data b.1.data⟩
      haveI : IsTrans (String × Bool) pairNameLE := ⟨fun _ _ _ h1 h2 => lexLEb_trans h1 h2⟩
      exact List.sorted_insertionSort pairNameLE _
    exact (hs0.filter _).map _ (fun a b hab => hab)
  · intro nm
    constructor
    · intro h
      rcases List.mem_map.mp h with ⟨⟨a, b⟩, hx, rfl⟩
      rcases List.mem_filter.mp hx with ⟨hx1, hx2⟩
      have hb : b = true := by simpa using hx2
      subst hb
      exact (List.mem_insertionSort pairNameLE).mp hx1
    · intro h
      exact List.mem_map.mpr ⟨(nm, true),
        List.mem_filter.mpr ⟨(List.mem_insertionSort pairNameLE).mpr h, rfl⟩, rfl⟩
  · intro hf
    rw [hfl] at hf
    rw [ho, hf]
    rfl
  · intro hf
    rw [hfl] at hf
    rw [ho, if_neg (by simp only [List.isEmpty_iff]; exact hf), hfl]

/-- **C9, witness.** The amended batch theorem applied to a concrete root
where project `alpha` fails to stop its services (a caught exception) and
`beta` succeeds: both run, in sorted order, and the batch reports the
aggregate failure naming `alpha`. -/
theorem c9_batch_isolation_witness :
    (benvMix.rootIsDir = true ∧ iter_project_dirs benvMix.listing ≠ []) ∧
    ((backup_all_projects "remote" "backups" "/projects" benvMix).attempted
        = iter_project_dirs benvMix.listing ∧
    (iter_project_dirs benvMix.listing).Sorted strLE ∧
    (∀ nm, nm ∈ iter_project_dirs benvMix.listing ↔ (nm, true) ∈ benvMix.listing) ∧
    (backup_all_projects "remote" "backups" "/projects" benvMix).failed
      = (iter_project_dirs benvMix.listing).filterMap
          (failureOf "remote" "backups" "/projects" benvMix) ∧
    ((backup_all_projects "remote" "backups" "/projects" benvMix).failed = [] →
      (backup_all_projects "remote" "backups" "/projects" benvMix).outcome = .ok) ∧
    ((backup_all_projects "remote" "backups" "/projects" benvMix).failed ≠ [] →
      (backup_all_projects "remote" "backups" "/projects" benvMix).outcome
        = .failures (backup_all_projects "remote" "backups" "/projects" benvMix).failed)) :=
  ⟨⟨rfl, by decide⟩,
   c9_batch_isolation "remote" "backups" "/projects" benvMix rfl (by decide) (by decide)⟩

/-- **C10.** If the staging directory already exists when the workflow tries
to create it, the process terminates immediately with exit code 1 (a
`SystemExit`, not a catchable `Exception`): the run's outcome is `exited 1`,
its trace is just the tree-archive creation, and the tree archive is left
behind in the project's parent directory.  In the batch workflow this aborts
the entire process: once the first colliding project is reached, it is the
last attempted project and the batch ends with exit code 1. -/
theorem c10_staging_collision_exits (c : Cfg) (env : Env)
    (h1 : env.isDir = true) (h2 : env.treeOk = true) (h3 : env.tempDirExists = true) :
    (backup_project c env
      = ⟨[Event.makeArchive (treeBase c) (projDir c)], .exited 1⟩ ∧
     finalState (backup_project c env).trace = [treeZipOutside c]) ∧
    (∀ remote rp root benv pre p post,
      benv.rootIsDir = true →
      iter_project_dirs benv.listing = pre ++ p :: post →
      (∀ q ∈ pre, isExitedOutcome
        (backup_project (cfgFor remote rp root benv q) (benv.projEnv q)).outcome = false) →
      (backup_project (cfgFor remote rp root benv p) (benv.projEnv p)).outcome
        = .exited 1 →
      (backup_all_projects remote rp root benv).attempted = pre ++ [p] ∧
      (backup_all_projects remote rp root benv).outcome = .exitedEarly 1) := by
  have hred : backup_project c env
      = ⟨[Event.makeArchive (treeBase c) (projDir c)], .exited 1⟩ := by
    unfold backup_project
    rw [if_neg (by simp [h1]), if_neg (by simp [h2]), if_pos h3]
  constructor
  · refine ⟨hred, ?_⟩
    rw [hred]
    rfl
  · intro remote rp root benv pre p post hroot hdirs hpre hp
    obtain ⟨fs, hfs⟩ := batchLoop_exit remote rp root benv p post pre hpre hp
    have hnonempty : ¬((iter_project_dirs benv.listing).isEmpty = true) := by
      rw [hdirs, List.isEmpty_iff]
      intro hx
      exact List.cons_ne_nil p post (List.append_eq_nil.mp hx).2
    have hredB : backup_all_projects remote rp root benv
        = ⟨pre ++ [p], fs, .exitedEarly 1⟩ := by
      unfold backup_all_projects
      rw [if_neg (by simp [hroot]), if_neg hnonempty, hdirs, hfs]
    rw [hredB]
    exact ⟨rfl, rfl⟩

/-- **C10, witness.** Both parts applied to concrete inputs: a direct run
with a pre-existing staging directory, and the batch over a root whose
first project `alpha` collides (so `beta` is never attempted). -/
theorem c10_staging_collision_exits_witness :
    ((backup_project cfgW envCollision
      = ⟨[Event.makeArchive (treeBase cfgW) (projDir cfgW)], .exited 1⟩ ∧
     finalState (backup_project cfgW envCollision).trace = [treeZipOutside cfgW]) ∧
     ((backup_all_projects "remote" "backups" "/projects" benvCollision).attempted
        = [] ++ ["alpha"] ∧
      (backup_all_projects "remote" "backups" "/projects" benvCollision).outcome
        = .exitedEarly 1)) :=
  ⟨(c10_staging_collision_exits cfgW envCollision rfl rfl rfl).1,
   (c10_staging_collision_exits cfgW envCollision rfl rfl rfl).2
     "remote" "backups" "/projects" benvCollision [] "alpha" ["beta"] rfl rfl
     (by intro q hq; cases hq) rfl⟩

/-- **C3, counterexample.** A remote listing with two `.zip` files, one with a
missing `ModTime` and one with a valid RFC3339 timestamp, and `keep = 1`:
the filtered list has size 2 > 1, so the claim demands that exactly the one
oldest entry be deleted, but `rotate_project_backups` raises (`TypeError`,
from comparing an offset-naive with an offset-aware datetime) and deletes
nothing. -/
theorem c3_counterexample_mixed_listing :
    (backupsOf [entOldNoTime, entNew]).length = 2 ∧
      rotate_project_backups "remote" "" 1 [entOldNoTime, entNew] =
        .error .typeError :=
  ⟨rfl, rfl⟩

/-- **C3, amended.** For every remote listing whose `.zip` entries' parsed
modification timestamps are uniformly comparable (not a mix of offset-naive
and offset-aware, i.e. not a mix of missing/unparseable and valid
offset-carrying timestamps) and every `keep ≥ 1`: rotation first restricts
attention to non-directory entries whose name ends in `.zip`; there is a
sorted-by-modification-time permutation of that restriction such that, if its
size is ≤ `keep`, nothing is deleted, and if its size `n` exceeds `keep`,
exactly the `n - keep` oldest entries are deleted, in oldest-first order,
retaining exactly the newest `keep` entries. -/
theorem c3_retention_keeps_newest (remote remotePath : String) (keep : Int)
    (entries : List RcloneEntry) (hk : 1 ≤ keep)
    (hmix : mixedKinds (backupsOf entries) = false) :
    (sortBackups (backupsOf entries)).Perm (backupsOf entries) ∧
    (sortBackups (backupsOf entries)).Sorted entryLE ∧
    ((backupsOf entries).length ≤ keep.toNat →
      rotate_project_backups remote remotePath keep entries = .ok []) ∧
    (keep.toNat < (backupsOf entries).length →
      rotate_project_backups remote remotePath keep entries =
        .ok ((((sortBackups (backupsOf entries)).take (excessOf keep entries)).filterMap
            relPath).map (deleteTarget remote remotePath)) ∧
      (((sortBackups (backupsOf entries)).take (excessOf keep entries)).filterMap
          relPath).length = excessOf keep entries ∧
      ((sortBackups (backupsOf entries)).drop (excessOf keep entries)).length = keep.toNat ∧
      ∀ a ∈ (sortBackups (backupsOf entries)).take (excessOf keep entries),
        ∀ b ∈ (sortBackups (backupsOf entries)).drop (excessOf keep entries),
          entryLE a b) := by
  have hmix' : mixedKinds (List.filter isBackupEntry entries) = false := hmix
  have hbl : (List.filter isBackupEntry entries).length = (backupsOf entries).length := rfl
  have hperm : (sortBackups (backupsOf entries)).Perm (backupsOf entries) :=
    List.perm_insertionSort entryLE _
  have hlen : (sortBackups (backupsOf entries)).length = (backupsOf entries).length :=
    hperm.length_eq
  have hsorted : (sortBackups (backupsOf entries)).Sorted entryLE :=
    List.sorted_insertionSort entryLE _
  refine ⟨hperm, hsorted, ?_, ?_⟩
  · intro hle
    unfold rotate_project_backups
    rw [if_neg (by omega), if_neg (by rw [hmix']; exact Bool.false_ne_true),
      if_pos (by omega)]
  · intro hlt
    have hcond : ¬(((entries.filter isBackupEntry).length : Int) ≤ keep) := by omega
    refine ⟨?_, ?_, ?_, ?_⟩
    · unfold rotate_project_backups
      rw [if_neg (by omega), if_neg (by rw [hmix']; exact Bool.false_ne_true),
        if_neg hcond]
      rfl
    · have hfm := length_filterMap_relPath
        ((sortBackups (backupsOf entries)).take (excessOf keep entries))
        (fun e he => relPath_isSome e
          (List.of_mem_filter (hperm.mem_iff.mp (List.mem_of_mem_take he))))
      rw [hfm, List.length_take, hlen]
      unfold excessOf
      omega
    · rw [List.length_drop, hlen]
      unfold excessOf
      omega
    · have := hsorted
      rw [List.Sorted, ← List.take_append_drop (excessOf keep entries)
        (sortBackups (backupsOf entries)), List.pairwise_append] at this
      exact this.2.2

/-- **C3, witness.** The amended retention theorem applied to a concrete
listing of three `.zip` archives (plus a directory and a `.txt` file) with
`keep = 1`: the two oldest archives are deleted, oldest first. -/
theorem c3_retention_keeps_newest_witness :
    (1 ≤ (1 : Int)) ∧ mixedKinds (backupsOf listingW) = false ∧
    ((sortBackups (backupsOf listingW)).Perm (backupsOf listingW) ∧
    (sortBackups (backupsOf listingW)).Sorted entryLE ∧
    ((backupsOf listingW).length ≤ (1 : Int).toNat →
      rotate_project_backups "remote" "backups/" 1 listingW = .ok []) ∧
    ((1 : Int).toNat < (backupsOf listingW).length →
      rotate_project_backups "remote" "backups/" 1 listingW =
        .ok ((((sortBackups (backupsOf listingW)).take (excessOf 1 listingW)).filterMap
            relPath).map (deleteTarget "remote" "backups/")) ∧
      (((sortBackups (backupsOf listingW)).take (excessOf 1 listingW)).filterMap
          relPath).length = excessOf 1 listingW ∧
      ((sortBackups (backupsOf listingW)).drop (excessOf 1 listingW)).length = (1 : Int).toNat ∧
      ∀ a ∈ (sortBackups (backupsOf listingW)).take (excessOf 1 listingW),
        ∀ b ∈ (sortBackups (backupsOf listingW)).drop (excessOf 1 listingW),
          entryLE a b)) :=
  ⟨by decide, rfl, c3_retention_keeps_newest "remote" "backups/" 1 listingW (by decide) rfl⟩

/-- **C4.** (Code bug, exhibited on the model.)  On a listing that mixes a
missing modification timestamp with a valid RFC3339 one, the sort key for the
former is offset-naive `datetime.min` while the latter parses to an
offset-aware datetime; Python refuses to compare the two, so the rotation
raises `TypeError` instead of treating missing timestamps as oldest — the
claim's "rotation never fails merely because some entries have missing
timestamps while others have valid RFC3339 timestamps" is exactly what the
code violates. -/
theorem c4_missing_timestamps_break_rotation :
    isNaiveKey entOldNoTime = true ∧ isAwareKey entNew = true ∧
      rotate_project_backups "remote" "" 4 [entOldNoTime, entNew, entMid] =
        .error .typeError :=
  ⟨rfl, rfl, rfl⟩

end ComposeBackup
